import Mathlib

/-!
# GoAST: the forked syntax-tree walker, its visitor protocol and the entry points

A shallow embedding of `walk/walk.go` (the walker `GoAST_Walk`, its list helpers and the
synthetic `DummyNode`), of the visitor protocol it drives, and of `goast/goast.go` (the entry
points `ParseFile`, `ParsePackage` and `ParseDirectory`).

* A Go `Node` value is modelled by the inductive type `Node`: one constructor per node type
  that the type switch of `GoAST_Walk` enumerates, plus `Other` for any node type outside it.
* A field that the walker guards with `!= nil` is an `Option Node`; a field that it walks
  without a guard is a `Node`, and so are the root and the elements of a slice (a slice field
  is a `List Node`): `go/ast` documents them as always set, and a nil there is outside the
  model.  Fields the walker never reads (token positions, operators) are left out, except the
  text of leaves.
* `go/ast` itself is not part of the repository: the `Pos()`/`End()` methods of its nodes and
  the order in which `range` enumerates a Go map are parameters (`GoAst`).
* A visitor is a value of a type `V`; the effect of `Visit` on the program state `σ` and the
  visitor it returns (`none` is Go's `nil`) are given by a `Visitor σ V`.
* The walker is instrumented: a run returns the final state, the sequence of `Visit` calls it
  made and how it ended (`Run`).
* The entry points take `go/parser` and the `visitor` package, neither of which is part of
  the sources, as parameters (`Deps`); a Go map is given by the list of its entries, and a
  run of an entry point returns the state, the visitors made, the calls and the two results
  (`EntryRun`).
* `GoAST_Walk` and its helpers call each other; the recursion is tied through a budget
  (`GoAST_WalkFuel`), and `GoAST_Walk` takes the budget `Node.depth`, which is always enough
  (`GoAST_WalkFuel_eq`, `GoAST_Walk_eq`, `GoAST_Walk_out_ne_outOfFuel`).
-/

namespace GoAST

/-- Source nodes: the node types of the type switch in `GoAST_Walk`, in its order, with the
fields the walker reads, and `Other` for a node type the switch does not enumerate. -/
inductive Node where
  /-- Go type `*Comment` -/
  | Comment (Text : String)
  /-- Go type `*DummyNode{start, end, Name, List}` -/
  | DummyNode (start end_ : Int) (Name : String) (Lst : List Node)
  /-- Go type `*CommentGroup{List}` -/
  | CommentGroup (Lst : List Node)
  /-- Go type `*Field{Doc, Names, Type, Tag, Comment}` -/
  | Field (Doc : Option Node) (Names : List Node) (Typ : Node) (Tag Comment : Option Node)
  /-- Go type `*FieldList{List}` -/
  | FieldList (Lst : List Node)
  | BadExpr
  | Ident (Name : String)
  | BasicLit (Value : String)
  /-- Go type `*Ellipsis{Elt}` -/
  | Ellipsis (Elt : Option Node)
  /-- Go type `*FuncLit{Type, Body}` -/
  | FuncLit (Typ Body : Node)
  /-- Go type `*CompositeLit{Type, Elts}` -/
  | CompositeLit (Typ : Option Node) (Elts : List Node)
  | ParenExpr (X : Node)
  | SelectorExpr (X Sel : Node)
  | IndexExpr (X Index : Node)
  /-- Go type `*SliceExpr{X, Low, High}` -/
  | SliceExpr (X : Node) (Low High : Option Node)
  /-- Go type `*TypeAssertExpr{X, Type}` -/
  | TypeAssertExpr (X : Node) (Typ : Option Node)
  /-- Go type `*CallExpr{Fun, Args}` -/
  | CallExpr (Fun : Node) (Args : List Node)
  | StarExpr (X : Node)
  | UnaryExpr (X : Node)
  | BinaryExpr (X Y : Node)
  | KeyValueExpr (Key Value : Node)
  /-- Go type `*ArrayType{Len, Elt}` -/
  | ArrayType (Len : Option Node) (Elt : Node)
  | StructType (Fields : Node)
  /-- Go type `*FuncType{Params, Results}` -/
  | FuncType (Params : Node) (Results : Option Node)
  | InterfaceType (Methods : Node)
  | MapType (Key Value : Node)
  | ChanType (Value : Node)
  | BadStmt
  | DeclStmt (Decl : Node)
  | EmptyStmt
  | LabeledStmt (Label Stmt : Node)
  | ExprStmt (X : Node)
  | SendStmt (Chan Value : Node)
  | IncDecStmt (X : Node)
  /-- Go type `*AssignStmt{Lhs, Rhs}` -/
  | AssignStmt (Lhs Rhs : List Node)
  | GoStmt (Call : Node)
  | DeferStmt (Call : Node)
  /-- Go type `*ReturnStmt{Results}` -/
  | ReturnStmt (Results : List Node)
  /-- Go type `*BranchStmt{Label}` -/
  | BranchStmt (Label : Option Node)
  /-- Go type `*BlockStmt{List}` -/
  | BlockStmt (Lst : List Node)
  /-- Go type `*IfStmt{Init, Cond, Body, Else}` -/
  | IfStmt (Init : Option Node) (Cond Body : Node) (Else : Option Node)
  /-- Go type `*CaseClause{List, Body}` -/
  | CaseClause (Lst Body : List Node)
  /-- Go type `*SwitchStmt{Init, Tag, Body}` -/
  | SwitchStmt (Init Tag : Option Node) (Body : Node)
  /-- Go type `*TypeSwitchStmt{Init, Assign, Body}` -/
  | TypeSwitchStmt (Init : Option Node) (Assign Body : Node)
  /-- Go type `*CommClause{Comm, Body}` -/
  | CommClause (Comm : Option Node) (Body : List Node)
  | SelectStmt (Body : Node)
  /-- Go type `*ForStmt{Init, Cond, Post, Body}` -/
  | ForStmt (Init Cond Post : Option Node) (Body : Node)
  /-- Go type `*RangeStmt{Key, Value, X, Body}` -/
  | RangeStmt (Key : Node) (Value : Option Node) (X Body : Node)
  /-- Go type `*ImportSpec{Doc, Name, Path, Comment}` -/
  | ImportSpec (Doc Name : Option Node) (Path : Node) (Comment : Option Node)
  /-- Go type `*ValueSpec{Doc, Names, Type, Values, Comment}` -/
  | ValueSpec (Doc : Option Node) (Names : List Node) (Typ : Option Node)
      (Values : List Node) (Comment : Option Node)
  /-- Go type `*TypeSpec{Doc, Name, Type, Comment}` -/
  | TypeSpec (Doc : Option Node) (Name Typ : Node) (Comment : Option Node)
  | BadDecl
  /-- Go type `*GenDecl{Doc, Specs}` -/
  | GenDecl (Doc : Option Node) (Specs : List Node)
  /-- Go type `*FuncDecl{Doc, Recv, Name, Type, Body}` -/
  | FuncDecl (Doc Recv : Option Node) (Name Typ : Node) (Body : Option Node)
  /-- Go type `*File{Doc, Name, Decls, Comments}` -/
  | File (Doc : Option Node) (Name : Node) (Decls Comments : List Node)
  /-- Go type `*Package{Files}`: the values of the map `Files` (the walker never reads its keys). -/
  | Package (Files : List Node)
  /-- A node whose dynamic type is none of the above; `typeName` is what `%T` prints. -/
  | Other (typeName : String)
  deriving Repr, Inhabited

/-- What `walk.go` uses of `go/ast` and of the Go runtime without defining it: the `Pos()` and
`End()` methods of the `go/ast` node types, and the order in which a `range` over the map
`Package.Files` yields its values (Go leaves it unspecified; it is a rearrangement of the
map's values). -/
structure GoAst where
  Pos : Node → Int
  End : Node → Int
  mapOrder : List Node → List Node
  mapOrder_perm : ∀ files, (mapOrder files).Perm files

/-- `NewDummyNode(name, start, end, list)`. -/
def NewDummyNode (name : String) (start end_ : Int) (list : List Node) : Node :=
  Node.DummyNode start end_ name list

/-- `node.Pos()`: `DummyNode.Pos` returns `self.start`, every other node uses `go/ast`. -/
def Node.Pos (ast : GoAst) : Node → Int
  | .DummyNode start _ _ _ => start
  | n => ast.Pos n

/-- `node.End()`: `DummyNode.End` returns `self.end`, every other node uses `go/ast`. -/
def Node.End (ast : GoAst) : Node → Int
  | .DummyNode _ end_ _ _ => end_
  | n => ast.End n

/-- The `Visitor` interface: `Visit v node s` is the visitor that `v.Visit(node)` returns
(`none` for `nil`) and the program state after the call; `node = none` is `Visit(nil)`. -/
structure Visitor (σ V : Type) where
  Visit : V → Option Node → σ → Option V × σ

/-- One `Visit` call: the visitor that received it and the argument (`none` for `nil`). -/
structure Call (V : Type) where
  recv : V
  node : Option Node
  deriving Repr

/-- How a run ends: it returns, it panics (with what it printed before and the panic value),
or the recursion budget of the model ran out. -/
inductive Outcome where
  | returned
  | panicked (printed value : String)
  | outOfFuel
  deriving Repr, DecidableEq

/-- The result of running a piece of the walker: final state, the `Visit` calls made, in
order, and how the run ended. -/
structure Run (σ V : Type) where
  store : σ
  calls : List (Call V)
  out : Outcome

/-- A piece of the walker, run from a given state. -/
abbrev Act (σ V : Type) := σ → Run σ V

/-- The empty statement. -/
def Act.skip {σ V : Type} : Act σ V := fun s => ⟨s, [], .returned⟩

/-- Sequential composition `a; b`: `b` runs only if `a` returned. -/
def Act.seq {σ V : Type} (a b : Act σ V) : Act σ V := fun s =>
  match a s with
  | ⟨s₁, calls₁, .returned⟩ => ⟨(b s₁).store, calls₁ ++ (b s₁).calls, (b s₁).out⟩
  | r => r

/-- A block of statements. -/
def Act.block {σ V : Type} : List (Act σ V) → Act σ V
  | [] => Act.skip
  | a :: rest => Act.seq a (Act.block rest)

/-- The loop `for _, x := range list { body(x) }`. -/
def Act.forEach {σ V : Type} (list : List Node) (body : Node → Act σ V) : Act σ V :=
  match list with
  | [] => Act.skip
  | x :: rest => Act.seq (body x) (Act.forEach rest body)

/-- The statement `if x != nil { body(x) }`. -/
def Act.ifNotNil {σ V : Type} (x : Option Node) (body : Node → Act σ V) : Act σ V :=
  match x with
  | none => Act.skip
  | some n => body n

/-- The statement `panic(value)` after printing `printed`. -/
def Act.panic {σ V : Type} (printed value : String) : Act σ V :=
  fun s => ⟨s, [], .panicked printed value⟩

/-- The call `w := v.Visit(node)` followed by `k w`. -/
def Act.visit {σ V : Type} (vis : Visitor σ V) (v : V) (node : Option Node)
    (k : Option V → Act σ V) : Act σ V := fun s =>
  let r := k (vis.Visit v node s).1 (vis.Visit v node s).2
  ⟨r.store, ⟨v, node⟩ :: r.calls, r.out⟩

section Walker

variable {σ V : Type}

/-- `walkIdentList`; `walk` is `GoAST_Walk`. -/
def walkIdentList (walk : V → Node → Act σ V) (v : V) (list : List Node) : Act σ V :=
  Act.forEach list (fun x => walk v x)

/-- `walkExprList`: a non-empty list is walked as one fresh `DummyNode` named "ExprList". -/
def walkExprList (ast : GoAst) (walk : V → Node → Act σ V) (v : V) (list : List Node) :
    Act σ V :=
  if h : 0 < list.length then
    walk v (NewDummyNode "ExprList"
      ((list.get ⟨0, h⟩).Pos ast)
      ((list.get ⟨list.length - 1, Nat.sub_lt h Nat.one_pos⟩).End ast)
      (list.foldl (fun nodes c => nodes ++ [c]) []))
  else Act.skip

/-- `walkStmtList`. -/
def walkStmtList (walk : V → Node → Act σ V) (v : V) (list : List Node) : Act σ V :=
  Act.forEach list (fun x => walk v x)

/-- `walkDeclList`. -/
def walkDeclList (walk : V → Node → Act σ V) (v : V) (list : List Node) : Act σ V :=
  Act.forEach list (fun x => walk v x)

/-- The type switch of `GoAST_Walk` ("walk children"), for the visitor `v` that
`Visit(node)` returned; `walk` is the recursive `GoAST_Walk`.  The cases are in the order of
the source. -/
def walkChildren (ast : GoAst) (walk : V → Node → Act σ V) (v : V) : Node → Act σ V
  -- Comments and fields
  | .Comment _ => Act.skip
  | .DummyNode _ _ _ Lst => Act.forEach Lst (fun c => walk v c)
  | .CommentGroup Lst => Act.forEach Lst (fun c => walk v c)
  | .Field Doc Names Typ Tag Comment => Act.block [
      Act.ifNotNil Doc (walk v),
      walkIdentList walk v Names,
      walk v Typ,
      Act.ifNotNil Tag (walk v),
      Act.ifNotNil Comment (walk v)]
  | .FieldList Lst => Act.forEach Lst (fun f => walk v f)
  -- Expressions
  | .BadExpr => Act.skip
  | .Ident _ => Act.skip
  | .BasicLit _ => Act.skip
  | .Ellipsis Elt => Act.ifNotNil Elt (walk v)
  | .FuncLit Typ Body => Act.block [walk v Typ, walk v Body]
  | .CompositeLit Typ Elts => Act.block [
      Act.ifNotNil Typ (walk v),
      walkExprList ast walk v Elts]
  | .ParenExpr X => walk v X
  | .SelectorExpr X Sel => Act.block [walk v X, walk v Sel]
  | .IndexExpr X Index => Act.block [walk v X, walk v Index]
  | .SliceExpr X Low High => Act.block [
      walk v X,
      Act.ifNotNil Low (walk v),
      Act.ifNotNil High (walk v)]
  | .TypeAssertExpr X Typ => Act.block [walk v X, Act.ifNotNil Typ (walk v)]
  | .CallExpr Fun Args => Act.block [walk v Fun, walkExprList ast walk v Args]
  | .StarExpr X => walk v X
  | .UnaryExpr X => walk v X
  | .BinaryExpr X Y => Act.block [walk v X, walk v Y]
  | .KeyValueExpr Key Value => Act.block [walk v Key, walk v Value]
  -- Types
  | .ArrayType Len Elt => Act.block [Act.ifNotNil Len (walk v), walk v Elt]
  | .StructType Fields => walk v Fields
  | .FuncType Params Results => Act.block [walk v Params, Act.ifNotNil Results (walk v)]
  | .InterfaceType Methods => walk v Methods
  | .MapType Key Value => Act.block [walk v Key, walk v Value]
  | .ChanType Value => walk v Value
  -- Statements
  | .BadStmt => Act.skip
  | .DeclStmt Decl => walk v Decl
  | .EmptyStmt => Act.skip
  | .LabeledStmt Label Stmt => Act.block [walk v Label, walk v Stmt]
  | .ExprStmt X => walk v X
  | .SendStmt Chan Value => Act.block [walk v Chan, walk v Value]
  | .IncDecStmt X => walk v X
  | .AssignStmt Lhs Rhs => Act.block [walkExprList ast walk v Lhs, walkExprList ast walk v Rhs]
  | .GoStmt Call => walk v Call
  | .DeferStmt Call => walk v Call
  | .ReturnStmt Results => walkExprList ast walk v Results
  | .BranchStmt Label => Act.ifNotNil Label (walk v)
  | .BlockStmt Lst => walkStmtList walk v Lst
  | .IfStmt Init Cond Body Else => Act.block [
      Act.ifNotNil Init (walk v),
      walk v Cond,
      walk v Body,
      Act.ifNotNil Else (walk v)]
  | .CaseClause Lst Body => Act.block [walkExprList ast walk v Lst, walkStmtList walk v Body]
  | .SwitchStmt Init Tag Body => Act.block [
      Act.ifNotNil Init (walk v),
      Act.ifNotNil Tag (walk v),
      walk v Body]
  | .TypeSwitchStmt Init Assign Body => Act.block [
      Act.ifNotNil Init (walk v),
      walk v Assign,
      walk v Body]
  | .CommClause Comm Body => Act.block [Act.ifNotNil Comm (walk v), walkStmtList walk v Body]
  | .SelectStmt Body => walk v Body
  | .ForStmt Init Cond Post Body => Act.block [
      Act.ifNotNil Init (walk v),
      Act.ifNotNil Cond (walk v),
      Act.ifNotNil Post (walk v),
      walk v Body]
  | .RangeStmt Key Value X Body => Act.block [
      walk v Key,
      Act.ifNotNil Value (walk v),
      walk v X,
      walk v Body]
  -- Declarations
  | .ImportSpec Doc Name Path Comment => Act.block [
      Act.ifNotNil Doc (walk v),
      Act.ifNotNil Name (walk v),
      walk v Path,
      Act.ifNotNil Comment (walk v)]
  | .ValueSpec Doc Names Typ Values Comment => Act.block [
      Act.ifNotNil Doc (walk v),
      walkIdentList walk v Names,
      Act.ifNotNil Typ (walk v),
      walkExprList ast walk v Values,
      Act.ifNotNil Comment (walk v)]
  | .TypeSpec Doc Name Typ Comment => Act.block [
      Act.ifNotNil Doc (walk v),
      walk v Name,
      walk v Typ,
      Act.ifNotNil Comment (walk v)]
  | .BadDecl => Act.skip
  | .GenDecl Doc Specs => Act.block [
      Act.ifNotNil Doc (walk v),
      Act.forEach Specs (fun s => walk v s)]
  | .FuncDecl Doc Recv Name Typ Body => Act.block [
      Act.ifNotNil Doc (walk v),
      Act.ifNotNil Recv (walk v),
      walk v Name,
      walk v Typ,
      Act.ifNotNil Body (walk v)]
  -- Files and packages
  | .File Doc Name Decls Comments => Act.block [
      Act.ifNotNil Doc (walk v),
      walk v Name,
      walkDeclList walk v Decls,
      Act.forEach Comments (fun g => walk v g)]
  | .Package Files => Act.forEach (ast.mapOrder Files) (fun f => walk v f)
  | .Other typeName => Act.panic ("ast.Walk: unexpected node type " ++ typeName) "ast.Walk"

/-- `GoAST_Walk(v, node)` with a bound on the depth of the recursion: with no budget left the
run stops as `outOfFuel`; otherwise it calls `v.Visit(node)`, returns if the result is `nil`,
walks the children with the returned visitor and ends with `Visit(nil)` on it. -/
def GoAST_WalkFuel (ast : GoAst) (vis : Visitor σ V) : Nat → V → Node → Act σ V
  | 0, _, _ => fun s => ⟨s, [], .outOfFuel⟩
  | fuel + 1, v, node =>
    Act.visit vis v (some node) fun w =>
      match w with
      | none => Act.skip
      | some w => Act.seq (walkChildren ast (GoAST_WalkFuel ast vis fuel) w node)
          (Act.visit vis w none fun _ => Act.skip)

end Walker

mutual
/-- The depth of the recursion of `GoAST_Walk` on a node: one more than the deepest call it
makes on a child, a synthetic list node counting as a child of its own. -/
def Node.depth : Node → Nat
  | .Comment _ => 1
  | .DummyNode _ _ _ lst => 1 + Node.depthList lst
  | .CommentGroup lst => 1 + Node.depthList lst
  | .Field doc names typ tag comment =>
    1 + max (Node.depthOpt doc) (max (Node.depthList names) (max (Node.depth typ)
      (max (Node.depthOpt tag) (Node.depthOpt comment))))
  | .FieldList lst => 1 + Node.depthList lst
  | .BadExpr => 1
  | .Ident _ => 1
  | .BasicLit _ => 1
  | .Ellipsis elt => 1 + Node.depthOpt elt
  | .FuncLit typ body => 1 + max (Node.depth typ) (Node.depth body)
  | .CompositeLit typ elts => 1 + max (Node.depthOpt typ) (1 + Node.depthList elts)
  | .ParenExpr x => 1 + Node.depth x
  | .SelectorExpr x sel => 1 + max (Node.depth x) (Node.depth sel)
  | .IndexExpr x index => 1 + max (Node.depth x) (Node.depth index)
  | .SliceExpr x low high =>
    1 + max (Node.depth x) (max (Node.depthOpt low) (Node.depthOpt high))
  | .TypeAssertExpr x typ => 1 + max (Node.depth x) (Node.depthOpt typ)
  | .CallExpr fn args => 1 + max (Node.depth fn) (1 + Node.depthList args)
  | .StarExpr x => 1 + Node.depth x
  | .UnaryExpr x => 1 + Node.depth x
  | .BinaryExpr x y => 1 + max (Node.depth x) (Node.depth y)
  | .KeyValueExpr key value => 1 + max (Node.depth key) (Node.depth value)
  | .ArrayType len elt => 1 + max (Node.depthOpt len) (Node.depth elt)
  | .StructType fields => 1 + Node.depth fields
  | .FuncType params results => 1 + max (Node.depth params) (Node.depthOpt results)
  | .InterfaceType methods => 1 + Node.depth methods
  | .MapType key value => 1 + max (Node.depth key) (Node.depth value)
  | .ChanType value => 1 + Node.depth value
  | .BadStmt => 1
  | .DeclStmt decl => 1 + Node.depth decl
  | .EmptyStmt => 1
  | .LabeledStmt label stmt => 1 + max (Node.depth label) (Node.depth stmt)
  | .ExprStmt x => 1 + Node.depth x
  | .SendStmt chan value => 1 + max (Node.depth chan) (Node.depth value)
  | .IncDecStmt x => 1 + Node.depth x
  | .AssignStmt lhs rhs => 1 + max (1 + Node.depthList lhs) (1 + Node.depthList rhs)
  | .GoStmt call => 1 + Node.depth call
  | .DeferStmt call => 1 + Node.depth call
  | .ReturnStmt results => 1 + (1 + Node.depthList results)
  | .BranchStmt label => 1 + Node.depthOpt label
  | .BlockStmt lst => 1 + Node.depthList lst
  | .IfStmt init cond body els =>
    1 + max (Node.depthOpt init) (max (Node.depth cond) (max (Node.depth body)
      (Node.depthOpt els)))
  | .CaseClause lst body => 1 + max (1 + Node.depthList lst) (Node.depthList body)
  | .SwitchStmt init tag body =>
    1 + max (Node.depthOpt init) (max (Node.depthOpt tag) (Node.depth body))
  | .TypeSwitchStmt init assign body =>
    1 + max (Node.depthOpt init) (max (Node.depth assign) (Node.depth body))
  | .CommClause comm body => 1 + max (Node.depthOpt comm) (Node.depthList body)
  | .SelectStmt body => 1 + Node.depth body
  | .ForStmt init cond post body =>
    1 + max (Node.depthOpt init) (max (Node.depthOpt cond) (max (Node.depthOpt post)
      (Node.depth body)))
  | .RangeStmt key value x body =>
    1 + max (Node.depth key) (max (Node.depthOpt value) (max (Node.depth x)
      (Node.depth body)))
  | .ImportSpec doc name path comment =>
    1 + max (Node.depthOpt doc) (max (Node.depthOpt name) (max (Node.depth path)
      (Node.depthOpt comment)))
  | .ValueSpec doc names typ values comment =>
    1 + max (Node.depthOpt doc) (max (Node.depthList names) (max (Node.depthOpt typ)
      (max (1 + Node.depthList values) (Node.depthOpt comment))))
  | .TypeSpec doc name typ comment =>
    1 + max (Node.depthOpt doc) (max (Node.depth name) (max (Node.depth typ)
      (Node.depthOpt comment)))
  | .BadDecl => 1
  | .GenDecl doc specs => 1 + max (Node.depthOpt doc) (Node.depthList specs)
  | .FuncDecl doc recv name typ body =>
    1 + max (Node.depthOpt doc) (max (Node.depthOpt recv) (max (Node.depth name)
      (max (Node.depth typ) (Node.depthOpt body))))
  | .File doc name decls comments =>
    1 + max (Node.depthOpt doc) (max (Node.depth name) (max (Node.depthList decls)
      (Node.depthList comments)))
  | .Package files => 1 + Node.depthList files
  | .Other _ => 1
/-- The depth of an optional child: 0 when it is absent. -/
def Node.depthOpt : Option Node → Nat
  | none => 0
  | some n => Node.depth n
/-- The largest depth among the nodes of a list: 0 for the empty list. -/
def Node.depthList : List Node → Nat
  | [] => 0
  | x :: rest => max (Node.depth x) (Node.depthList rest)
end

/-- `GoAST_Walk(v, node)`: the walker with the budget its recursion needs on `node`. -/
def GoAST_Walk {σ V : Type} (ast : GoAst) (vis : Visitor σ V) (v : V) (node : Node) :
    Act σ V :=
  GoAST_WalkFuel ast vis (Node.depth node) v node

/-- The nodes that `walkExprList` walks for a list: nothing for the empty list, else the one
synthetic node it builds (read off the source; `walkExprList_eq_forEach` checks it). -/
def exprListNode (ast : GoAst) : List Node → List Node
  | [] => []
  | x :: rest => [NewDummyNode "ExprList" (x.Pos ast)
      (((x :: rest).getLast (List.cons_ne_nil x rest)).End ast) (x :: rest)]

/-- The nodes on which the type switch of `GoAST_Walk` calls `GoAST_Walk`, in the order of the
calls (read off the source case by case; `walkChildren_eq_forEach` checks it against the
switch). -/
def childrenWalked (ast : GoAst) : Node → List Node
  | .Comment _ => []
  | .DummyNode _ _ _ Lst => Lst
  | .CommentGroup Lst => Lst
  | .Field Doc Names Typ Tag Comment =>
    Doc.toList ++ Names ++ [Typ] ++ Tag.toList ++ Comment.toList
  | .FieldList Lst => Lst
  | .BadExpr => []
  | .Ident _ => []
  | .BasicLit _ => []
  | .Ellipsis Elt => Elt.toList
  | .FuncLit Typ Body => [Typ, Body]
  | .CompositeLit Typ Elts => Typ.toList ++ exprListNode ast Elts
  | .ParenExpr X => [X]
  | .SelectorExpr X Sel => [X, Sel]
  | .IndexExpr X Index => [X, Index]
  | .SliceExpr X Low High => [X] ++ Low.toList ++ High.toList
  | .TypeAssertExpr X Typ => [X] ++ Typ.toList
  | .CallExpr Fun Args => [Fun] ++ exprListNode ast Args
  | .StarExpr X => [X]
  | .UnaryExpr X => [X]
  | .BinaryExpr X Y => [X, Y]
  | .KeyValueExpr Key Value => [Key, Value]
  | .ArrayType Len Elt => Len.toList ++ [Elt]
  | .StructType Fields => [Fields]
  | .FuncType Params Results => [Params] ++ Results.toList
  | .InterfaceType Methods => [Methods]
  | .MapType Key Value => [Key, Value]
  | .ChanType Value => [Value]
  | .BadStmt => []
  | .DeclStmt Decl => [Decl]
  | .EmptyStmt => []
  | .LabeledStmt Label Stmt => [Label, Stmt]
  | .ExprStmt X => [X]
  | .SendStmt Chan Value => [Chan, Value]
  | .IncDecStmt X => [X]
  | .AssignStmt Lhs Rhs => exprListNode ast Lhs ++ exprListNode ast Rhs
  | .GoStmt Call => [Call]
  | .DeferStmt Call => [Call]
  | .ReturnStmt Results => exprListNode ast Results
  | .BranchStmt Label => Label.toList
  | .BlockStmt Lst => Lst
  | .IfStmt Init Cond Body Else => Init.toList ++ [Cond, Body] ++ Else.toList
  | .CaseClause Lst Body => exprListNode ast Lst ++ Body
  | .SwitchStmt Init Tag Body => Init.toList ++ Tag.toList ++ [Body]
  | .TypeSwitchStmt Init Assign Body => Init.toList ++ [Assign, Body]
  | .CommClause Comm Body => Comm.toList ++ Body
  | .SelectStmt Body => [Body]
  | .ForStmt Init Cond Post Body => Init.toList ++ Cond.toList ++ Post.toList ++ [Body]
  | .RangeStmt Key Value X Body => [Key] ++ Value.toList ++ [X, Body]
  | .ImportSpec Doc Name Path Comment =>
    Doc.toList ++ Name.toList ++ [Path] ++ Comment.toList
  | .ValueSpec Doc Names Typ Values Comment =>
    Doc.toList ++ Names ++ Typ.toList ++ exprListNode ast Values ++ Comment.toList
  | .TypeSpec Doc Name Typ Comment => Doc.toList ++ [Name, Typ] ++ Comment.toList
  | .BadDecl => []
  | .GenDecl Doc Specs => Doc.toList ++ Specs
  | .FuncDecl Doc Recv Name Typ Body =>
    Doc.toList ++ Recv.toList ++ [Name, Typ] ++ Body.toList
  | .File Doc Name Decls Comments => Doc.toList ++ [Name] ++ Decls ++ Comments
  | .Package Files => ast.mapOrder Files
  | .Other _ => []

/-- Whether the type switch of `GoAST_Walk` has a case for the node. -/
def Node.enumerated : Node → Bool
  | .Other _ => false
  | _ => true

mutual
/-- Whether a tree is a source tree of the closed grammar: none of its nodes has a type
outside the type switch of `GoAST_Walk`. -/
def Node.inGrammar : Node → Bool
  | .Comment _ => true
  | .DummyNode _ _ _ a3 => Node.inGrammarList a3
  | .CommentGroup a0 => Node.inGrammarList a0
  | .Field a0 a1 a2 a3 a4 => Node.inGrammarOpt a0 && Node.inGrammarList a1 && Node.inGrammar a2 && Node.inGrammarOpt a3 && Node.inGrammarOpt a4
  | .FieldList a0 => Node.inGrammarList a0
  | .BadExpr => true
  | .Ident _ => true
  | .BasicLit _ => true
  | .Ellipsis a0 => Node.inGrammarOpt a0
  | .FuncLit a0 a1 => Node.inGrammar a0 && Node.inGrammar a1
  | .CompositeLit a0 a1 => Node.inGrammarOpt a0 && Node.inGrammarList a1
  | .ParenExpr a0 => Node.inGrammar a0
  | .SelectorExpr a0 a1 => Node.inGrammar a0 && Node.inGrammar a1
  | .IndexExpr a0 a1 => Node.inGrammar a0 && Node.inGrammar a1
  | .SliceExpr a0 a1 a2 => Node.inGrammar a0 && Node.inGrammarOpt a1 && Node.inGrammarOpt a2
  | .TypeAssertExpr a0 a1 => Node.inGrammar a0 && Node.inGrammarOpt a1
  | .CallExpr a0 a1 => Node.inGrammar a0 && Node.inGrammarList a1
  | .StarExpr a0 => Node.inGrammar a0
  | .UnaryExpr a0 => Node.inGrammar a0
  | .BinaryExpr a0 a1 => Node.inGrammar a0 && Node.inGrammar a1
  | .KeyValueExpr a0 a1 => Node.inGrammar a0 && Node.inGrammar a1
  | .ArrayType a0 a1 => Node.inGrammarOpt a0 && Node.inGrammar a1
  | .StructType a0 => Node.inGrammar a0
  | .FuncType a0 a1 => Node.inGrammar a0 && Node.inGrammarOpt a1
  | .InterfaceType a0 => Node.inGrammar a0
  | .MapType a0 a1 => Node.inGrammar a0 && Node.inGrammar a1
  | .ChanType a0 => Node.inGrammar a0
  | .BadStmt => true
  | .DeclStmt a0 => Node.inGrammar a0
  | .EmptyStmt => true
  | .LabeledStmt a0 a1 => Node.inGrammar a0 && Node.inGrammar a1
  | .ExprStmt a0 => Node.inGrammar a0
  | .SendStmt a0 a1 => Node.inGrammar a0 && Node.inGrammar a1
  | .IncDecStmt a0 => Node.inGrammar a0
  | .AssignStmt a0 a1 => Node.inGrammarList a0 && Node.inGrammarList a1
  | .GoStmt a0 => Node.inGrammar a0
  | .DeferStmt a0 => Node.inGrammar a0
  | .ReturnStmt a0 => Node.inGrammarList a0
  | .BranchStmt a0 => Node.inGrammarOpt a0
  | .BlockStmt a0 => Node.inGrammarList a0
  | .IfStmt a0 a1 a2 a3 => Node.inGrammarOpt a0 && Node.inGrammar a1 && Node.inGrammar a2 && Node.inGrammarOpt a3
  | .CaseClause a0 a1 => Node.inGrammarList a0 && Node.inGrammarList a1
  | .SwitchStmt a0 a1 a2 => Node.inGrammarOpt a0 && Node.inGrammarOpt a1 && Node.inGrammar a2
  | .TypeSwitchStmt a0 a1 a2 => Node.inGrammarOpt a0 && Node.inGrammar a1 && Node.inGrammar a2
  | .CommClause a0 a1 => Node.inGrammarOpt a0 && Node.inGrammarList a1
  | .SelectStmt a0 => Node.inGrammar a0
  | .ForStmt a0 a1 a2 a3 => Node.inGrammarOpt a0 && Node.inGrammarOpt a1 && Node.inGrammarOpt a2 && Node.inGrammar a3
  | .RangeStmt a0 a1 a2 a3 => Node.inGrammar a0 && Node.inGrammarOpt a1 && Node.inGrammar a2 && Node.inGrammar a3
  | .ImportSpec a0 a1 a2 a3 => Node.inGrammarOpt a0 && Node.inGrammarOpt a1 && Node.inGrammar a2 && Node.inGrammarOpt a3
  | .ValueSpec a0 a1 a2 a3 a4 => Node.inGrammarOpt a0 && Node.inGrammarList a1 && Node.inGrammarOpt a2 && Node.inGrammarList a3 && Node.inGrammarOpt a4
  | .TypeSpec a0 a1 a2 a3 => Node.inGrammarOpt a0 && Node.inGrammar a1 && Node.inGrammar a2 && Node.inGrammarOpt a3
  | .BadDecl => true
  | .GenDecl a0 a1 => Node.inGrammarOpt a0 && Node.inGrammarList a1
  | .FuncDecl a0 a1 a2 a3 a4 => Node.inGrammarOpt a0 && Node.inGrammarOpt a1 && Node.inGrammar a2 && Node.inGrammar a3 && Node.inGrammarOpt a4
  | .File a0 a1 a2 a3 => Node.inGrammarOpt a0 && Node.inGrammar a1 && Node.inGrammarList a2 && Node.inGrammarList a3
  | .Package a0 => Node.inGrammarList a0
  | .Other _ => false
/-- Whether an optional child, if present, is a source tree of the grammar. -/
def Node.inGrammarOpt : Option Node → Bool
  | none => true
  | some n => Node.inGrammar n
/-- Whether every node of a list is a source tree of the grammar. -/
def Node.inGrammarList : List Node → Bool
  | [] => true
  | x :: rest => Node.inGrammar x && Node.inGrammarList rest
end

/-- The leaf node types: the cases of the type switch that say "nothing to do". -/
def Node.isLeaf : Node → Bool
  | .Comment _ => true
  | .BadExpr => true
  | .Ident _ => true
  | .BasicLit _ => true
  | .BadStmt => true
  | .EmptyStmt => true
  | .BadDecl => true
  | _ => false

/-- A visitor (every visitor value of `V`, in every state) never returns `nil` from `Visit`
on a node. -/
def NeverSkips {σ V : Type} (vis : Visitor σ V) : Prop :=
  ∀ (v : V) (n : Node) (s : σ), (vis.Visit v (some n) s).1 ≠ none

/-- The number of `Visit(nil)` calls in a sequence of calls. -/
def endCalls {V : Type} (calls : List (Call V)) : Nat :=
  calls.countP fun c => c.node.isNone

/-- The number of `Visit(node)` calls with a node in a sequence of calls. -/
def nodeCalls {V : Type} (calls : List (Call V)) : Nat :=
  calls.countP fun c => c.node.isSome

/-- Well-nested sequences of calls: empty, or `Visit(node)`, a well-nested sequence, the
matching `Visit(nil)`, and a well-nested rest. -/
inductive Nested {V : Type} : List (Call V) → Prop
  | nil : Nested []
  | node (v w : V) (n : Node) (inner rest : List (Call V)) :
      Nested inner → Nested rest → Nested (⟨v, some n⟩ :: inner ++ ⟨w, none⟩ :: rest)

/-- Whether a node is a synthetic `DummyNode`. -/
def Node.isDummyNode : Node → Bool
  | .DummyNode _ _ _ _ => true
  | _ => false

/-- The `List` field of a `DummyNode` (no other node type has it here). -/
def Node.dummyList : Node → List Node
  | .DummyNode _ _ _ list => list
  | _ => []

mutual
/-- Whether a tree holds no synthetic node: a tree as the parser builds it, before any walk
has wrapped a list. -/
def Node.noDummy : Node → Bool
  | .Comment _ => true
  | .DummyNode _ _ _ _ => false
  | .CommentGroup a0 => Node.noDummyList a0
  | .Field a0 a1 a2 a3 a4 => Node.noDummyOpt a0 && Node.noDummyList a1 && Node.noDummy a2 && Node.noDummyOpt a3 && Node.noDummyOpt a4
  | .FieldList a0 => Node.noDummyList a0
  | .BadExpr => true
  | .Ident _ => true
  | .BasicLit _ => true
  | .Ellipsis a0 => Node.noDummyOpt a0
  | .FuncLit a0 a1 => Node.noDummy a0 && Node.noDummy a1
  | .CompositeLit a0 a1 => Node.noDummyOpt a0 && Node.noDummyList a1
  | .ParenExpr a0 => Node.noDummy a0
  | .SelectorExpr a0 a1 => Node.noDummy a0 && Node.noDummy a1
  | .IndexExpr a0 a1 => Node.noDummy a0 && Node.noDummy a1
  | .SliceExpr a0 a1 a2 => Node.noDummy a0 && Node.noDummyOpt a1 && Node.noDummyOpt a2
  | .TypeAssertExpr a0 a1 => Node.noDummy a0 && Node.noDummyOpt a1
  | .CallExpr a0 a1 => Node.noDummy a0 && Node.noDummyList a1
  | .StarExpr a0 => Node.noDummy a0
  | .UnaryExpr a0 => Node.noDummy a0
  | .BinaryExpr a0 a1 => Node.noDummy a0 && Node.noDummy a1
  | .KeyValueExpr a0 a1 => Node.noDummy a0 && Node.noDummy a1
  | .ArrayType a0 a1 => Node.noDummyOpt a0 && Node.noDummy a1
  | .StructType a0 => Node.noDummy a0
  | .FuncType a0 a1 => Node.noDummy a0 && Node.noDummyOpt a1
  | .InterfaceType a0 => Node.noDummy a0
  | .MapType a0 a1 => Node.noDummy a0 && Node.noDummy a1
  | .ChanType a0 => Node.noDummy a0
  | .BadStmt => true
  | .DeclStmt a0 => Node.noDummy a0
  | .EmptyStmt => true
  | .LabeledStmt a0 a1 => Node.noDummy a0 && Node.noDummy a1
  | .ExprStmt a0 => Node.noDummy a0
  | .SendStmt a0 a1 => Node.noDummy a0 && Node.noDummy a1
  | .IncDecStmt a0 => Node.noDummy a0
  | .AssignStmt a0 a1 => Node.noDummyList a0 && Node.noDummyList a1
  | .GoStmt a0 => Node.noDummy a0
  | .DeferStmt a0 => Node.noDummy a0
  | .ReturnStmt a0 => Node.noDummyList a0
  | .BranchStmt a0 => Node.noDummyOpt a0
  | .BlockStmt a0 => Node.noDummyList a0
  | .IfStmt a0 a1 a2 a3 => Node.noDummyOpt a0 && Node.noDummy a1 && Node.noDummy a2 && Node.noDummyOpt a3
  | .CaseClause a0 a1 => Node.noDummyList a0 && Node.noDummyList a1
  | .SwitchStmt a0 a1 a2 => Node.noDummyOpt a0 && Node.noDummyOpt a1 && Node.noDummy a2
  | .TypeSwitchStmt a0 a1 a2 => Node.noDummyOpt a0 && Node.noDummy a1 && Node.noDummy a2
  | .CommClause a0 a1 => Node.noDummyOpt a0 && Node.noDummyList a1
  | .SelectStmt a0 => Node.noDummy a0
  | .ForStmt a0 a1 a2 a3 => Node.noDummyOpt a0 && Node.noDummyOpt a1 && Node.noDummyOpt a2 && Node.noDummy a3
  | .RangeStmt a0 a1 a2 a3 => Node.noDummy a0 && Node.noDummyOpt a1 && Node.noDummy a2 && Node.noDummy a3
  | .ImportSpec a0 a1 a2 a3 => Node.noDummyOpt a0 && Node.noDummyOpt a1 && Node.noDummy a2 && Node.noDummyOpt a3
  | .ValueSpec a0 a1 a2 a3 a4 => Node.noDummyOpt a0 && Node.noDummyList a1 && Node.noDummyOpt a2 && Node.noDummyList a3 && Node.noDummyOpt a4
  | .TypeSpec a0 a1 a2 a3 => Node.noDummyOpt a0 && Node.noDummy a1 && Node.noDummy a2 && Node.noDummyOpt a3
  | .BadDecl => true
  | .GenDecl a0 a1 => Node.noDummyOpt a0 && Node.noDummyList a1
  | .FuncDecl a0 a1 a2 a3 a4 => Node.noDummyOpt a0 && Node.noDummyOpt a1 && Node.noDummy a2 && Node.noDummy a3 && Node.noDummyOpt a4
  | .File a0 a1 a2 a3 => Node.noDummyOpt a0 && Node.noDummy a1 && Node.noDummyList a2 && Node.noDummyList a3
  | .Package a0 => Node.noDummyList a0
  | .Other _ => true
/-- Whether an optional child, if present, holds no synthetic node. -/
def Node.noDummyOpt : Option Node → Bool
  | none => true
  | some n => Node.noDummy n
/-- Whether no tree of a list holds a synthetic node. -/
def Node.noDummyList : List Node → Bool
  | [] => true
  | x :: rest => Node.noDummy x && Node.noDummyList rest
end

mutual
/-- Whether every package container of a tree has at most one file, so that the order in
which `range` enumerates its `Files` map does not matter. -/
def Node.singleFiles : Node → Bool
  | .Comment _ => true
  | .DummyNode _ _ _ a3 => Node.singleFilesList a3
  | .CommentGroup a0 => Node.singleFilesList a0
  | .Field a0 a1 a2 a3 a4 => Node.singleFilesOpt a0 && Node.singleFilesList a1 && Node.singleFiles a2 && Node.singleFilesOpt a3 && Node.singleFilesOpt a4
  | .FieldList a0 => Node.singleFilesList a0
  | .BadExpr => true
  | .Ident _ => true
  | .BasicLit _ => true
  | .Ellipsis a0 => Node.singleFilesOpt a0
  | .FuncLit a0 a1 => Node.singleFiles a0 && Node.singleFiles a1
  | .CompositeLit a0 a1 => Node.singleFilesOpt a0 && Node.singleFilesList a1
  | .ParenExpr a0 => Node.singleFiles a0
  | .SelectorExpr a0 a1 => Node.singleFiles a0 && Node.singleFiles a1
  | .IndexExpr a0 a1 => Node.singleFiles a0 && Node.singleFiles a1
  | .SliceExpr a0 a1 a2 => Node.singleFiles a0 && Node.singleFilesOpt a1 && Node.singleFilesOpt a2
  | .TypeAssertExpr a0 a1 => Node.singleFiles a0 && Node.singleFilesOpt a1
  | .CallExpr a0 a1 => Node.singleFiles a0 && Node.singleFilesList a1
  | .StarExpr a0 => Node.singleFiles a0
  | .UnaryExpr a0 => Node.singleFiles a0
  | .BinaryExpr a0 a1 => Node.singleFiles a0 && Node.singleFiles a1
  | .KeyValueExpr a0 a1 => Node.singleFiles a0 && Node.singleFiles a1
  | .ArrayType a0 a1 => Node.singleFilesOpt a0 && Node.singleFiles a1
  | .StructType a0 => Node.singleFiles a0
  | .FuncType a0 a1 => Node.singleFiles a0 && Node.singleFilesOpt a1
  | .InterfaceType a0 => Node.singleFiles a0
  | .MapType a0 a1 => Node.singleFiles a0 && Node.singleFiles a1
  | .ChanType a0 => Node.singleFiles a0
  | .BadStmt => true
  | .DeclStmt a0 => Node.singleFiles a0
  | .EmptyStmt => true
  | .LabeledStmt a0 a1 => Node.singleFiles a0 && Node.singleFiles a1
  | .ExprStmt a0 => Node.singleFiles a0
  | .SendStmt a0 a1 => Node.singleFiles a0 && Node.singleFiles a1
  | .IncDecStmt a0 => Node.singleFiles a0
  | .AssignStmt a0 a1 => Node.singleFilesList a0 && Node.singleFilesList a1
  | .GoStmt a0 => Node.singleFiles a0
  | .DeferStmt a0 => Node.singleFiles a0
  | .ReturnStmt a0 => Node.singleFilesList a0
  | .BranchStmt a0 => Node.singleFilesOpt a0
  | .BlockStmt a0 => Node.singleFilesList a0
  | .IfStmt a0 a1 a2 a3 => Node.singleFilesOpt a0 && Node.singleFiles a1 && Node.singleFiles a2 && Node.singleFilesOpt a3
  | .CaseClause a0 a1 => Node.singleFilesList a0 && Node.singleFilesList a1
  | .SwitchStmt a0 a1 a2 => Node.singleFilesOpt a0 && Node.singleFilesOpt a1 && Node.singleFiles a2
  | .TypeSwitchStmt a0 a1 a2 => Node.singleFilesOpt a0 && Node.singleFiles a1 && Node.singleFiles a2
  | .CommClause a0 a1 => Node.singleFilesOpt a0 && Node.singleFilesList a1
  | .SelectStmt a0 => Node.singleFiles a0
  | .ForStmt a0 a1 a2 a3 => Node.singleFilesOpt a0 && Node.singleFilesOpt a1 && Node.singleFilesOpt a2 && Node.singleFiles a3
  | .RangeStmt a0 a1 a2 a3 => Node.singleFiles a0 && Node.singleFilesOpt a1 && Node.singleFiles a2 && Node.singleFiles a3
  | .ImportSpec a0 a1 a2 a3 => Node.singleFilesOpt a0 && Node.singleFilesOpt a1 && Node.singleFiles a2 && Node.singleFilesOpt a3
  | .ValueSpec a0 a1 a2 a3 a4 => Node.singleFilesOpt a0 && Node.singleFilesList a1 && Node.singleFilesOpt a2 && Node.singleFilesList a3 && Node.singleFilesOpt a4
  | .TypeSpec a0 a1 a2 a3 => Node.singleFilesOpt a0 && Node.singleFiles a1 && Node.singleFiles a2 && Node.singleFilesOpt a3
  | .BadDecl => true
  | .GenDecl a0 a1 => Node.singleFilesOpt a0 && Node.singleFilesList a1
  | .FuncDecl a0 a1 a2 a3 a4 => Node.singleFilesOpt a0 && Node.singleFilesOpt a1 && Node.singleFiles a2 && Node.singleFiles a3 && Node.singleFilesOpt a4
  | .File a0 a1 a2 a3 => Node.singleFilesOpt a0 && Node.singleFiles a1 && Node.singleFilesList a2 && Node.singleFilesList a3
  | .Package a0 => decide (a0.length ≤ 1) && Node.singleFilesList a0
  | .Other _ => true
/-- Whether an optional child, if present, has only packages of at most one file. -/
def Node.singleFilesOpt : Option Node → Bool
  | none => true
  | some n => Node.singleFiles n
/-- Whether every tree of a list has only packages of at most one file. -/
def Node.singleFilesList : List Node → Bool
  | [] => true
  | x :: rest => Node.singleFiles x && Node.singleFilesList rest
end

mutual
/-- Whether two runs enumerate the `Files` map of every package container of a tree in the
same order; `ast₁` and `ast₂` give the orders of the two runs. -/
def Node.sameFileOrder (ast₁ ast₂ : GoAst) : Node → Prop
  | .Comment _ => True
  | .DummyNode _ _ _ a3 => Node.sameFileOrderList ast₁ ast₂ a3
  | .CommentGroup a0 => Node.sameFileOrderList ast₁ ast₂ a0
  | .Field a0 a1 a2 a3 a4 => Node.sameFileOrderOpt ast₁ ast₂ a0 ∧ Node.sameFileOrderList ast₁ ast₂ a1 ∧ Node.sameFileOrder ast₁ ast₂ a2 ∧ Node.sameFileOrderOpt ast₁ ast₂ a3 ∧ Node.sameFileOrderOpt ast₁ ast₂ a4
  | .FieldList a0 => Node.sameFileOrderList ast₁ ast₂ a0
  | .BadExpr => True
  | .Ident _ => True
  | .BasicLit _ => True
  | .Ellipsis a0 => Node.sameFileOrderOpt ast₁ ast₂ a0
  | .FuncLit a0 a1 => Node.sameFileOrder ast₁ ast₂ a0 ∧ Node.sameFileOrder ast₁ ast₂ a1
  | .CompositeLit a0 a1 => Node.sameFileOrderOpt ast₁ ast₂ a0 ∧ Node.sameFileOrderList ast₁ ast₂ a1
  | .ParenExpr a0 => Node.sameFileOrder ast₁ ast₂ a0
  | .SelectorExpr a0 a1 => Node.sameFileOrder ast₁ ast₂ a0 ∧ Node.sameFileOrder ast₁ ast₂ a1
  | .IndexExpr a0 a1 => Node.sameFileOrder ast₁ ast₂ a0 ∧ Node.sameFileOrder ast₁ ast₂ a1
  | .SliceExpr a0 a1 a2 => Node.sameFileOrder ast₁ ast₂ a0 ∧ Node.sameFileOrderOpt ast₁ ast₂ a1 ∧ Node.sameFileOrderOpt ast₁ ast₂ a2
  | .TypeAssertExpr a0 a1 => Node.sameFileOrder ast₁ ast₂ a0 ∧ Node.sameFileOrderOpt ast₁ ast₂ a1
  | .CallExpr a0 a1 => Node.sameFileOrder ast₁ ast₂ a0 ∧ Node.sameFileOrderList ast₁ ast₂ a1
  | .StarExpr a0 => Node.sameFileOrder ast₁ ast₂ a0
  | .UnaryExpr a0 => Node.sameFileOrder ast₁ ast₂ a0
  | .BinaryExpr a0 a1 => Node.sameFileOrder ast₁ ast₂ a0 ∧ Node.sameFileOrder ast₁ ast₂ a1
  | .KeyValueExpr a0 a1 => Node.sameFileOrder ast₁ ast₂ a0 ∧ Node.sameFileOrder ast₁ ast₂ a1
  | .ArrayType a0 a1 => Node.sameFileOrderOpt ast₁ ast₂ a0 ∧ Node.sameFileOrder ast₁ ast₂ a1
  | .StructType a0 => Node.sameFileOrder ast₁ ast₂ a0
  | .FuncType a0 a1 => Node.sameFileOrder ast₁ ast₂ a0 ∧ Node.sameFileOrderOpt ast₁ ast₂ a1
  | .InterfaceType a0 => Node.sameFileOrder ast₁ ast₂ a0
  | .MapType a0 a1 => Node.sameFileOrder ast₁ ast₂ a0 ∧ Node.sameFileOrder ast₁ ast₂ a1
  | .ChanType a0 => Node.sameFileOrder ast₁ ast₂ a0
  | .BadStmt => True
  | .DeclStmt a0 => Node.sameFileOrder ast₁ ast₂ a0
  | .EmptyStmt => True
  | .LabeledStmt a0 a1 => Node.sameFileOrder ast₁ ast₂ a0 ∧ Node.sameFileOrder ast₁ ast₂ a1
  | .ExprStmt a0 => Node.sameFileOrder ast₁ ast₂ a0
  | .SendStmt a0 a1 => Node.sameFileOrder ast₁ ast₂ a0 ∧ Node.sameFileOrder ast₁ ast₂ a1
  | .IncDecStmt a0 => Node.sameFileOrder ast₁ ast₂ a0
  | .AssignStmt a0 a1 => Node.sameFileOrderList ast₁ ast₂ a0 ∧ Node.sameFileOrderList ast₁ ast₂ a1
  | .GoStmt a0 => Node.sameFileOrder ast₁ ast₂ a0
  | .DeferStmt a0 => Node.sameFileOrder ast₁ ast₂ a0
  | .ReturnStmt a0 => Node.sameFileOrderList ast₁ ast₂ a0
  | .BranchStmt a0 => Node.sameFileOrderOpt ast₁ ast₂ a0
  | .BlockStmt a0 => Node.sameFileOrderList ast₁ ast₂ a0
  | .IfStmt a0 a1 a2 a3 => Node.sameFileOrderOpt ast₁ ast₂ a0 ∧ Node.sameFileOrder ast₁ ast₂ a1 ∧ Node.sameFileOrder ast₁ ast₂ a2 ∧ Node.sameFileOrderOpt ast₁ ast₂ a3
  | .CaseClause a0 a1 => Node.sameFileOrderList ast₁ ast₂ a0 ∧ Node.sameFileOrderList ast₁ ast₂ a1
  | .SwitchStmt a0 a1 a2 => Node.sameFileOrderOpt ast₁ ast₂ a0 ∧ Node.sameFileOrderOpt ast₁ ast₂ a1 ∧ Node.sameFileOrder ast₁ ast₂ a2
  | .TypeSwitchStmt a0 a1 a2 => Node.sameFileOrderOpt ast₁ ast₂ a0 ∧ Node.sameFileOrder ast₁ ast₂ a1 ∧ Node.sameFileOrder ast₁ ast₂ a2
  | .CommClause a0 a1 => Node.sameFileOrderOpt ast₁ ast₂ a0 ∧ Node.sameFileOrderList ast₁ ast₂ a1
  | .SelectStmt a0 => Node.sameFileOrder ast₁ ast₂ a0
  | .ForStmt a0 a1 a2 a3 => Node.sameFileOrderOpt ast₁ ast₂ a0 ∧ Node.sameFileOrderOpt ast₁ ast₂ a1 ∧ Node.sameFileOrderOpt ast₁ ast₂ a2 ∧ Node.sameFileOrder ast₁ ast₂ a3
  | .RangeStmt a0 a1 a2 a3 => Node.sameFileOrder ast₁ ast₂ a0 ∧ Node.sameFileOrderOpt ast₁ ast₂ a1 ∧ Node.sameFileOrder ast₁ ast₂ a2 ∧ Node.sameFileOrder ast₁ ast₂ a3
  | .ImportSpec a0 a1 a2 a3 => Node.sameFileOrderOpt ast₁ ast₂ a0 ∧ Node.sameFileOrderOpt ast₁ ast₂ a1 ∧ Node.sameFileOrder ast₁ ast₂ a2 ∧ Node.sameFileOrderOpt ast₁ ast₂ a3
  | .ValueSpec a0 a1 a2 a3 a4 => Node.sameFileOrderOpt ast₁ ast₂ a0 ∧ Node.sameFileOrderList ast₁ ast₂ a1 ∧ Node.sameFileOrderOpt ast₁ ast₂ a2 ∧ Node.sameFileOrderList ast₁ ast₂ a3 ∧ Node.sameFileOrderOpt ast₁ ast₂ a4
  | .TypeSpec a0 a1 a2 a3 => Node.sameFileOrderOpt ast₁ ast₂ a0 ∧ Node.sameFileOrder ast₁ ast₂ a1 ∧ Node.sameFileOrder ast₁ ast₂ a2 ∧ Node.sameFileOrderOpt ast₁ ast₂ a3
  | .BadDecl => True
  | .GenDecl a0 a1 => Node.sameFileOrderOpt ast₁ ast₂ a0 ∧ Node.sameFileOrderList ast₁ ast₂ a1
  | .FuncDecl a0 a1 a2 a3 a4 => Node.sameFileOrderOpt ast₁ ast₂ a0 ∧ Node.sameFileOrderOpt ast₁ ast₂ a1 ∧ Node.sameFileOrder ast₁ ast₂ a2 ∧ Node.sameFileOrder ast₁ ast₂ a3 ∧ Node.sameFileOrderOpt ast₁ ast₂ a4
  | .File a0 a1 a2 a3 => Node.sameFileOrderOpt ast₁ ast₂ a0 ∧ Node.sameFileOrder ast₁ ast₂ a1 ∧ Node.sameFileOrderList ast₁ ast₂ a2 ∧ Node.sameFileOrderList ast₁ ast₂ a3
  | .Package a0 => ast₁.mapOrder a0 = ast₂.mapOrder a0 ∧ Node.sameFileOrderList ast₁ ast₂ a0
  | .Other _ => True
/-- Whether two runs agree on the packages of an optional child, if present. -/
def Node.sameFileOrderOpt (ast₁ ast₂ : GoAst) : Option Node → Prop
  | none => True
  | some n => Node.sameFileOrder ast₁ ast₂ n
/-- Whether two runs agree on the packages of every tree of a list. -/
def Node.sameFileOrderList (ast₁ ast₂ : GoAst) : List Node → Prop
  | [] => True
  | x :: rest => Node.sameFileOrder ast₁ ast₂ x ∧ Node.sameFileOrderList ast₁ ast₂ rest
end

/-- The `Name` field of a `DummyNode` (no other node type has it here). -/
def Node.dummyName : Node → Option String
  | .DummyNode _ _ name _ => some name
  | _ => none

/-! ## The entry points of `goast/goast.go` -/

/-- Go `error` values that the entry points return: an error of `go/parser`, passed on, or a
fresh error made by `errors.New(msg)`. -/
inductive Error (E : Type) where
  | parser (err : E)
  | errorsNew (msg : String)

/-- What `goast.go` uses without defining it.  `go/parser`: `ParseFile path` stands for
`parser.ParseFile(token.NewFileSet(), path, nil, 0)` and `ParseDir dir filter` for
`parser.ParseDir(token.NewFileSet(), dir, filter, 0)`, whose map of packages is given by its
entries in the order in which the `range` of `ParseDirectory` enumerates them; the trees it
returns may hold nodes of any type, also of a type outside the switch of `GoAST_Walk`.  The
`visitor` package: the `Visit` method of its visitors, `visitor.New()` and the method
`AST()`, which returns a `*tree.Node` (`none` is nil). -/
structure Deps (σ V E Tree : Type) where
  ParseFile : String → Except E Node
  ParseDir : String → (String → Bool) → Except E (List (String × Node))
  visitor : Visitor σ V
  New : σ → V × σ
  AST : V → σ → Option Tree × σ

/-- How a call of an entry point ends: it returns its two results (the error is `none` for
nil), or a walk inside it panicked, or the recursion budget of the model ran out. -/
inductive Ended (E α : Type) where
  | returned (value : α) (err : Option (Error E))
  | panicked (printed value : String)
  | outOfFuel

/-- The result of running an entry point: final state, the visitors made by `visitor.New()`,
the `Visit` calls made by the walks, in order, and how the call ended. -/
structure EntryRun (σ V E α : Type) where
  store : σ
  created : List V
  calls : List (Call V)
  ended : Ended E α

/-- Go's `strings.HasSuffix(s, suffix)`. -/
def HasSuffix (s suffix : String) : Bool :=
  suffix.data.isSuffixOf s.data

/-- The map index expression `m[key]` with the comma-ok form, for a map given by its entries;
`m = none` is the nil map, in which no key is found. -/
def mapIndex {α : Type} (m : Option (List (String × α))) (key : String) : Option α :=
  match m with
  | none => none
  | some entries => entries.lookup key

/-- The map assignment `m[key] = x`: the entry of `key` is replaced or added. -/
def mapAssign {α : Type} (m : List (String × α)) (key : String) (x : α) :
    List (String × α) :=
  m.filter (fun entry => entry.1 != key) ++ [(key, x)]

section Entry

variable {σ V E Tree : Type}

/-- `ParseFile(file_path)`. -/
def ParseFile (ast : GoAst) (deps : Deps σ V E Tree) (file_path : String) (s : σ) :
    EntryRun σ V E (Option Tree) :=
  match deps.ParseFile file_path with
  | .error err => ⟨s, [], [], .returned none (some (.parser err))⟩
  | .ok file =>
    let visitor := (deps.New s).1
    let run := GoAST_Walk ast deps.visitor visitor file (deps.New s).2
    match run.out with
    | .returned =>
      ⟨(deps.AST visitor run.store).2, [visitor], run.calls,
        .returned (deps.AST visitor run.store).1 none⟩
    | .panicked printed value => ⟨run.store, [visitor], run.calls, .panicked printed value⟩
    | .outOfFuel => ⟨run.store, [visitor], run.calls, .outOfFuel⟩

/-- The loop `for name, node := range pkgs` of `ParseDirectory` and its final
`return pkgasts, nil`; `pkgasts` is the map built so far. -/
def ParseDirectory.loop (ast : GoAst) (deps : Deps σ V E Tree) :
    List (String × Node) → List (String × Option Tree) → σ →
      EntryRun σ V E (Option (List (String × Option Tree)))
  | [], pkgasts, s => ⟨s, [], [], .returned (some pkgasts) none⟩
  | (name, node) :: rest, pkgasts, s =>
    let visitor := (deps.New s).1
    let run := GoAST_Walk ast deps.visitor visitor node (deps.New s).2
    match run.out with
    | .returned =>
      let r := ParseDirectory.loop ast deps rest
        (mapAssign pkgasts name (deps.AST visitor run.store).1) (deps.AST visitor run.store).2
      ⟨r.store, visitor :: r.created, run.calls ++ r.calls, r.ended⟩
    | .panicked printed value => ⟨run.store, [visitor], run.calls, .panicked printed value⟩
    | .outOfFuel => ⟨run.store, [visitor], run.calls, .outOfFuel⟩

/-- `ParseDirectory(dir_path, ext)`. -/
def ParseDirectory (ast : GoAst) (deps : Deps σ V E Tree) (dir_path ext : String) (s : σ) :
    EntryRun σ V E (Option (List (String × Option Tree))) :=
  match deps.ParseDir dir_path (fun name => HasSuffix name ext) with
  | .error err => ⟨s, [], [], .returned none (some (.parser err))⟩
  | .ok pkgs =>
    if pkgs.length = 0 then
      ⟨s, [], [], .returned none (some (.errorsNew "No packages found."))⟩
    else
      ParseDirectory.loop ast deps pkgs [] s

/-- `ParsePackage(dir_path, ext, package_name)`. -/
def ParsePackage (ast : GoAst) (deps : Deps σ V E Tree) (dir_path ext package_name : String)
    (s : σ) : EntryRun σ V E (Option Tree) :=
  let r := ParseDirectory ast deps dir_path ext s
  match r.ended with
  | .returned _ (some err) => ⟨r.store, r.created, r.calls, .returned none (some err)⟩
  | .returned pkgs none =>
    match mapIndex pkgs package_name with
    | some pkg => ⟨r.store, r.created, r.calls, .returned pkg none⟩
    | none => ⟨r.store, r.created, r.calls,
        .returned none (some (.errorsNew "The supplied package name was not found."))⟩
  | .panicked printed value => ⟨r.store, r.created, r.calls, .panicked printed value⟩
  | .outOfFuel => ⟨r.store, r.created, r.calls, .outOfFuel⟩

end Entry

/-! ## Example inputs -/

/-- An instance of what `go/ast` provides: positions read from a small table, map values
enumerated in the stored order. -/
def exampleAst : GoAst where
  Pos := fun n =>
    match n with
    | .Ident "a" => 10
    | .BasicLit "1" => 13
    | _ => 0
  End := fun n =>
    match n with
    | .Ident "a" => 11
    | .BasicLit "1" => 14
    | _ => 0
  mapOrder := fun files => files
  mapOrder_perm := fun files => List.Perm.refl files

/-- A visitor that never skips: visitor `k` answers every call with visitor `k + 1`, and the
state counts the calls. -/
def levelVisitor : Visitor Nat Nat where
  Visit := fun v _ s => (some (v + 1), s + 1)

/-- A visitor that skips every node: `Visit` always returns `nil`. -/
def skipVisitor : Visitor Nat Nat where
  Visit := fun _ _ s => (none, s + 1)

/-- The function declaration `func (r) f() { return a, 1 }`. -/
def exampleFuncDecl : Node :=
  .FuncDecl none (some (.FieldList [.Field none [.Ident "r"] (.Ident "T") none none]))
    (.Ident "f") (.FuncType (.FieldList []) none)
    (some (.BlockStmt [.ReturnStmt [.Ident "a", .BasicLit "1"]]))

/-- The comment group `// doc`. -/
def exampleDoc : Node := .CommentGroup [.Comment "// doc"]

/-- A file as `go/parser` builds it when it keeps comments: the doc comment of `func f()`
is the `Doc` of the declaration and is also listed in `File.Comments`. -/
def exampleFile : Node :=
  .File none (.Ident "main")
    [.FuncDecl (some exampleDoc) none (.Ident "f") (.FuncType (.FieldList []) none) none]
    [exampleDoc]

/-- A visitor with two visitor values that answer each other: `Visit` on `v` returns the
other one. -/
def toggleVisitor : Visitor Nat Bool where
  Visit := fun v _ s => (some (!v), s + 1)

/-- The instance `exampleAst` with the other order for the values of a map: a `range` yields
them in the reverse of the stored order. -/
def reversedAst : GoAst where
  Pos := exampleAst.Pos
  End := exampleAst.End
  mapOrder := fun files => files.reverse
  mapOrder_perm := fun files => List.reverse_perm files

/-- A package of two files, `package a` and `package b`, without declarations. -/
def examplePackage : Node :=
  .Package [.File none (.Ident "a") [] [], .File none (.Ident "b") [] []]

/-- The assignment `a = 1`. -/
def exampleAssign : Node := .AssignStmt [.Ident "a"] [.BasicLit "1"]

/-- A file that a parser of a later Go version accepts: `package main` with the declaration
`var x = m[int, string]`, whose value is a node of a type outside the switch. -/
def exampleForeignFile : Node :=
  .File none (.Ident "main")
    [.GenDecl none [.ValueSpec none [.Ident "x"] none [.Other "*ast.IndexListExpr"] none]] []

/-- An order of map enumeration that differs from the stored order on maps of three values
only: those it yields in reverse. -/
def threeAst : GoAst where
  Pos := exampleAst.Pos
  End := exampleAst.End
  mapOrder := fun files => if files.length = 3 then files.reverse else files
  mapOrder_perm := fun files => by
    dsimp only
    split
    · exact List.reverse_perm files
    · exact List.Perm.refl files

/-- An instance of what `goast.go` uses: the parser knows the files "f.go" and "gen.go" (the
latter holds a node of a type outside the switch) and the directories "src" (one package,
"main"), "gen" (one package, "main", with the file "gen.go") and "empty" (no package); the
visitors are those of `levelVisitor`, `visitor.New()` returns visitor 0 and `AST()` returns,
as a stand-in for the tree, the number of calls counted so far. -/
def exampleDeps : Deps Nat Nat String Nat where
  ParseFile := fun path =>
    if path = "f.go" then .ok exampleFuncDecl
    else if path = "gen.go" then .ok exampleForeignFile
    else .error "no such file"
  ParseDir := fun dir _ =>
    if dir = "src" then .ok [("main", .Package [exampleFuncDecl])]
    else if dir = "gen" then .ok [("main", .Package [exampleForeignFile])]
    else if dir = "empty" then .ok []
    else .error "no such directory"
  visitor := levelVisitor
  New := fun s => (0, s)
  AST := fun _ s => (some s, s)

/-! ## The walker as an iteration over the children of a node -/

section Lemmas

variable {σ V : Type}

theorem Act.seq_skip_left (a : Act σ V) : Act.seq Act.skip a = a := by
  funext s; simp [Act.seq, Act.skip]

theorem Act.seq_skip_right (a : Act σ V) : Act.seq a Act.skip = a := by
  funext s
  simp only [Act.seq, Act.skip]
  rcases a s with ⟨s₁, c₁, o₁⟩
  cases o₁ <;> simp

theorem Act.seq_assoc (a b c : Act σ V) :
    Act.seq (Act.seq a b) c = Act.seq a (Act.seq b c) := by
  funext s
  simp only [Act.seq]
  rcases a s with ⟨s₁, c₁, o₁⟩
  cases o₁ <;> simp
  rcases b s₁ with ⟨s₂, c₂, o₂⟩
  cases o₂ <;> simp

theorem Act.forEach_nil (f : Node → Act σ V) : Act.forEach [] f = Act.skip := rfl

theorem Act.forEach_cons (x : Node) (l : List Node) (f : Node → Act σ V) :
    Act.forEach (x :: l) f = Act.seq (f x) (Act.forEach l f) := rfl

theorem Act.forEach_append (l₁ l₂ : List Node) (f : Node → Act σ V) :
    Act.forEach (l₁ ++ l₂) f = Act.seq (Act.forEach l₁ f) (Act.forEach l₂ f) := by
  induction l₁ with
  | nil => simp [Act.forEach_nil, Act.seq_skip_left]
  | cons x l ih => simp [Act.forEach_cons, ih, Act.seq_assoc]

theorem Act.ifNotNil_eq_forEach (o : Option Node) (f : Node → Act σ V) :
    Act.ifNotNil o f = Act.forEach o.toList f := by
  cases o <;> simp [Act.ifNotNil, Act.forEach_nil, Act.forEach_cons, Act.seq_skip_right]

theorem foldl_append_singleton (l acc : List Node) :
    l.foldl (fun nodes c => nodes ++ [c]) acc = acc ++ l := by
  induction l generalizing acc with
  | nil => simp
  | cons x l ih => simp [ih]

theorem walkExprList_eq_forEach (ast : GoAst) (walk : V → Node → Act σ V) (v : V)
    (list : List Node) :
    walkExprList ast walk v list = Act.forEach (exprListNode ast list) (walk v) := by
  cases list with
  | nil => simp [walkExprList, exprListNode, Act.forEach_nil]
  | cons x l =>
    simp only [walkExprList, exprListNode, Act.forEach_cons, Act.forEach_nil,
      Act.seq_skip_right, foldl_append_singleton, List.nil_append]
    simp [List.getLast_eq_getElem]

theorem walkChildren_eq_forEach (ast : GoAst) (walk : V → Node → Act σ V) (v : V)
    (n : Node) (h : n.enumerated = true) :
    walkChildren ast walk v n = Act.forEach (childrenWalked ast n) (walk v) := by
  cases n <;>
    simp [walkChildren, childrenWalked, Act.block, Act.forEach_append, Act.forEach_cons,
      Act.forEach_nil, Act.seq_skip_right, Act.seq_skip_left, Act.seq_assoc,
      Act.ifNotNil_eq_forEach, walkExprList_eq_forEach, walkIdentList, walkStmtList,
      walkDeclList, Node.enumerated] at h ⊢


theorem Node.depth_pos (n : Node) : 0 < n.depth := by
  cases n <;> simp only [Node.depth] <;> omega

theorem Node.depth_le_depthList {c : Node} {l : List Node} (h : c ∈ l) :
    c.depth ≤ Node.depthList l := by
  induction l with
  | nil => simp at h
  | cons x l ih =>
    simp only [Node.depthList]
    rcases List.mem_cons.mp h with h | h
    · subst h; exact Nat.le_max_left _ _
    · exact Nat.le_trans (ih h) (Nat.le_max_right _ _)

theorem Node.forall_mem_depth_lt (l : List Node) (m : Nat) :
    (∀ c ∈ l, c.depth < 1 + m) ↔ Node.depthList l < 1 + m := by
  induction l with
  | nil => simp [Node.depthList]
  | cons x l ih => simp only [List.forall_mem_cons, ih, Node.depthList]; omega

theorem Node.depthList_toList (o : Option Node) : Node.depthList o.toList = Node.depthOpt o := by
  cases o <;> simp [Node.depthList, Node.depthOpt]

theorem Node.depthList_exprListNode_le (ast : GoAst) (l : List Node) :
    Node.depthList (exprListNode ast l) ≤ 1 + Node.depthList l := by
  cases l <;> simp [exprListNode, NewDummyNode, Node.depth, Node.depthList]

theorem Node.depth_lt_of_mem_childrenWalked (ast : GoAst) (n : Node) :
    ∀ c ∈ childrenWalked ast n, c.depth < n.depth := by
  cases n <;>
    simp only [childrenWalked, Node.depth, List.forall_mem_append, List.forall_mem_cons,
      List.not_mem_nil, false_imp_iff, implies_true, and_true,
      Node.forall_mem_depth_lt, Node.depthList_toList]
  all_goals (repeat' apply And.intro)
  all_goals first
    | omega
    | (refine Nat.lt_of_le_of_lt (Node.depthList_exprListNode_le ast _) ?_; omega)
    | skip
  case Package files =>
    refine (Node.forall_mem_depth_lt _ _).mp fun c hc => ?_
    have := Node.depth_le_depthList ((ast.mapOrder_perm files).mem_iff.mp hc)
    omega

theorem Act.forEach_congr {l : List Node} {f g : Node → Act σ V} (h : ∀ c ∈ l, f c = g c) :
    Act.forEach l f = Act.forEach l g := by
  induction l with
  | nil => rfl
  | cons x l ih =>
    simp only [Act.forEach_cons]
    rw [h x (List.mem_cons_self x l), ih fun c hc => h c (List.mem_cons_of_mem x hc)]

theorem walkChildren_congr (ast : GoAst) (walk₁ walk₂ : V → Node → Act σ V) (v : V) (n : Node)
    (h : ∀ c ∈ childrenWalked ast n, walk₁ v c = walk₂ v c) :
    walkChildren ast walk₁ v n = walkChildren ast walk₂ v n := by
  cases hn : n.enumerated
  · cases n <;> simp [Node.enumerated] at hn
    rfl
  · rw [walkChildren_eq_forEach ast walk₁ v n hn, walkChildren_eq_forEach ast walk₂ v n hn]
    exact Act.forEach_congr h

theorem GoAST_WalkFuel_succ (ast : GoAst) (vis : Visitor σ V) (fuel : Nat) (v : V) (n : Node) :
    GoAST_WalkFuel ast vis (fuel + 1) v n =
      Act.visit vis v (some n) fun w =>
        match w with
        | none => Act.skip
        | some w => Act.seq (walkChildren ast (GoAST_WalkFuel ast vis fuel) w n)
            (Act.visit vis w none fun _ => Act.skip) := rfl

theorem GoAST_WalkFuel_stable (ast : GoAst) (vis : Visitor σ V) (k : Nat) :
    ∀ (f₁ f₂ : Nat) (v : V) (n : Node), n.depth ≤ k → n.depth ≤ f₁ → n.depth ≤ f₂ →
      GoAST_WalkFuel ast vis f₁ v n = GoAST_WalkFuel ast vis f₂ v n := by
  induction k with
  | zero => intro f₁ f₂ v n hk; have := n.depth_pos; omega
  | succ k ih =>
    intro f₁ f₂ v n hk h₁ h₂
    have hpos := n.depth_pos
    obtain ⟨g₁, rfl⟩ : ∃ g, f₁ = g + 1 := ⟨f₁ - 1, by omega⟩
    obtain ⟨g₂, rfl⟩ : ∃ g, f₂ = g + 1 := ⟨f₂ - 1, by omega⟩
    simp only [GoAST_WalkFuel_succ]
    refine congrArg (Act.visit vis v (some n)) (funext fun w => ?_)
    cases w with
    | none => rfl
    | some w =>
      simp only
      rw [walkChildren_congr ast (GoAST_WalkFuel ast vis g₁) (GoAST_WalkFuel ast vis g₂) w n]
      intro c hc
      have := Node.depth_lt_of_mem_childrenWalked ast n c hc
      exact ih g₁ g₂ w c (by omega) (by omega) (by omega)

theorem GoAST_WalkFuel_eq (ast : GoAst) (vis : Visitor σ V) (fuel : Nat) (v : V) (n : Node)
    (h : n.depth ≤ fuel) : GoAST_WalkFuel ast vis fuel v n = GoAST_Walk ast vis v n :=
  GoAST_WalkFuel_stable ast vis n.depth fuel n.depth v n (Nat.le_refl _) h (Nat.le_refl _)

/-- The body of `GoAST_Walk`: call `Visit(node)`, return on `nil`, else walk the children with
the returned visitor `w` (recursive calls are calls of `GoAST_Walk`), then `w.Visit(nil)`. -/
theorem GoAST_Walk_eq (ast : GoAst) (vis : Visitor σ V) (v : V) (n : Node) :
    GoAST_Walk ast vis v n =
      Act.visit vis v (some n) fun w =>
        match w with
        | none => Act.skip
        | some w => Act.seq (walkChildren ast (GoAST_Walk ast vis) w n)
            (Act.visit vis w none fun _ => Act.skip) := by
  obtain ⟨d, hd⟩ : ∃ d, n.depth = d + 1 := ⟨n.depth - 1, by have := n.depth_pos; omega⟩
  rw [GoAST_Walk, hd, GoAST_WalkFuel_succ]
  refine congrArg (Act.visit vis v (some n)) (funext fun w => ?_)
  cases w with
  | none => rfl
  | some w =>
    simp only
    rw [walkChildren_congr ast (GoAST_WalkFuel ast vis d) (GoAST_Walk ast vis) w n]
    intro c hc
    have := Node.depth_lt_of_mem_childrenWalked ast n c hc
    exact GoAST_WalkFuel_eq ast vis d w c (by omega)

/-! ## Well-nested calls -/

theorem Nested.append {a b : List (Call V)} (ha : Nested a) (hb : Nested b) :
    Nested (a ++ b) := by
  induction ha with
  | nil => simpa using hb
  | node v w n inner rest _ _ _ ih₂ =>
    have := Nested.node v w n inner (rest ++ b) ‹Nested inner› ih₂
    simpa [List.append_assoc] using this

theorem Nested.wrap (v w : V) (n : Node) {inner : List (Call V)} (h : Nested inner) :
    Nested (⟨v, some n⟩ :: inner ++ [⟨w, none⟩]) :=
  Nested.node v w n inner [] h Nested.nil

theorem endCalls_append (a b : List (Call V)) : endCalls (a ++ b) = endCalls a + endCalls b := by
  simp [endCalls]

theorem nodeCalls_append (a b : List (Call V)) : nodeCalls (a ++ b) = nodeCalls a + nodeCalls b := by
  simp [nodeCalls]

theorem Nested.endCalls_eq {cs : List (Call V)} (h : Nested cs) : endCalls cs = nodeCalls cs := by
  induction h with
  | nil => rfl
  | node v w n inner rest _ _ ih₁ ih₂ =>
    simp only [endCalls, nodeCalls] at ih₁ ih₂ ⊢
    simp [List.countP_cons, List.countP_append, ih₁, ih₂]
    omega

theorem Nested.endCalls_take_le {cs : List (Call V)} (h : Nested cs) (k : Nat) :
    endCalls (cs.take k) ≤ nodeCalls (cs.take k) := by
  induction h generalizing k with
  | nil => simp [endCalls, nodeCalls]
  | node v w n inner rest hi _ ih₁ ih₂ =>
    cases k with
    | zero => simp [endCalls, nodeCalls]
    | succ k =>
      have h₁ := ih₁ k
      have heq := hi.endCalls_eq
      rw [List.cons_append, List.take_succ_cons, List.take_append_eq_append_take]
      cases hk : k - inner.length with
      | zero =>
        simp only [endCalls, nodeCalls] at h₁ ⊢
        simp [List.countP_cons, List.countP_append]
        omega
      | succ j =>
        have h₂ := ih₂ j
        have hfull : List.take k inner = inner := List.take_of_length_le (by omega)
        rw [List.take_succ_cons, hfull]
        simp only [endCalls, nodeCalls] at h₂ heq ⊢
        simp [List.countP_cons, List.countP_append]
        omega

theorem Node.forall_mem_inGrammar (l : List Node) :
    (∀ c ∈ l, c.inGrammar = true) ↔ Node.inGrammarList l = true := by
  induction l with
  | nil => simp [Node.inGrammarList]
  | cons x l ih => simp [Node.inGrammarList, ih]

theorem Node.inGrammarList_toList (o : Option Node) :
    Node.inGrammarList o.toList = Node.inGrammarOpt o := by
  cases o <;> simp [Node.inGrammarList, Node.inGrammarOpt]

theorem Node.inGrammarList_exprListNode (ast : GoAst) (l : List Node) :
    Node.inGrammarList (exprListNode ast l) = Node.inGrammarList l := by
  cases l <;> simp [exprListNode, NewDummyNode, Node.inGrammar, Node.inGrammarList]

theorem Node.enumerated_of_inGrammar {n : Node} (h : n.inGrammar = true) :
    n.enumerated = true := by
  cases n <;> simp [Node.inGrammar, Node.enumerated] at h ⊢

theorem Node.inGrammar_of_mem_childrenWalked (ast : GoAst) (n : Node)
    (h : n.inGrammar = true) : ∀ c ∈ childrenWalked ast n, c.inGrammar = true := by
  cases n <;>
    simp only [childrenWalked, Node.inGrammar, List.forall_mem_append, List.forall_mem_cons,
      List.not_mem_nil, false_imp_iff, implies_true, and_true, Bool.and_eq_true,
      Node.forall_mem_inGrammar, Node.inGrammarList_toList,
      Node.inGrammarList_exprListNode] at h ⊢
  all_goals first
    | trivial
    | tauto
    | skip
  case Package files =>
    refine (Node.forall_mem_inGrammar _).mp fun c hc => ?_
    exact (Node.forall_mem_inGrammar files).mpr h c ((ast.mapOrder_perm files).mem_iff.mp hc)

/-- A loop over walks that all return and make well-nested calls returns and makes
well-nested calls. -/
theorem Act.forEach_nested {l : List Node} {f : Node → Act σ V}
    (h : ∀ c ∈ l, ∀ s, (f c s).out = .returned ∧ Nested (f c s).calls) (s : σ) :
    (Act.forEach l f s).out = .returned ∧ Nested (Act.forEach l f s).calls := by
  induction l generalizing s with
  | nil => exact ⟨rfl, Nested.nil⟩
  | cons x l ih =>
    have hx := h x (List.mem_cons_self x l) s
    have hl := ih (fun c hc => h c (List.mem_cons_of_mem x hc))
    simp only [Act.forEach_cons, Act.seq]
    rcases hfx : f x s with ⟨s₁, c₁, o₁⟩
    rw [hfx] at hx
    simp only at hx
    obtain ⟨rfl, hn⟩ := hx
    exact ⟨(hl s₁).1, hn.append (hl s₁).2⟩

theorem Act.visit_end (vis : Visitor σ V) (w : V) (s : σ) :
    (Act.visit vis w none fun _ => Act.skip) s =
      ⟨(vis.Visit w none s).2, [⟨w, none⟩], .returned⟩ := rfl

theorem GoAST_Walk_descend (ast : GoAst) (vis : Visitor σ V) (v w : V) (n : Node) (s : σ)
    (h : (vis.Visit v (some n) s).1 = some w) :
    GoAST_Walk ast vis v n s =
      Act.visit vis v (some n) (fun _ =>
        Act.seq (walkChildren ast (GoAST_Walk ast vis) w n)
          (Act.visit vis w none fun _ => Act.skip)) s := by
  rw [GoAST_Walk_eq]
  simp only [Act.visit, h]

/-- On a source tree, with a visitor that never skips, a walk returns and its calls are
`Visit(node)`, the well-nested calls of the walks of the children, `Visit(nil)`. -/
theorem GoAST_Walk_nested (ast : GoAst) (vis : Visitor σ V) (hvis : NeverSkips vis) (d : Nat) :
    ∀ (n : Node), n.depth ≤ d → n.inGrammar = true → ∀ (v : V) (s : σ),
      ∃ w, (vis.Visit v (some n) s).1 = some w ∧
        Nested (Act.forEach (childrenWalked ast n) (GoAST_Walk ast vis w)
          (vis.Visit v (some n) s).2).calls ∧
        (GoAST_Walk ast vis v n s).out = .returned ∧
        (GoAST_Walk ast vis v n s).calls = ⟨v, some n⟩ ::
          (Act.forEach (childrenWalked ast n) (GoAST_Walk ast vis w)
            (vis.Visit v (some n) s).2).calls ++ [⟨w, none⟩] := by
  induction d with
  | zero => intro n hd; have := n.depth_pos; omega
  | succ d ih =>
    intro n hd hn v s
    obtain ⟨w, hw⟩ : ∃ w, (vis.Visit v (some n) s).1 = some w :=
      Option.ne_none_iff_exists'.mp (hvis v n s)
    have hkids : ∀ c ∈ childrenWalked ast n, ∀ s',
        (GoAST_Walk ast vis w c s').out = .returned ∧ Nested (GoAST_Walk ast vis w c s').calls := by
      intro c hc s'
      have hlt := Node.depth_lt_of_mem_childrenWalked ast n c hc
      obtain ⟨w', _, hnest, hout, hcalls⟩ :=
        ih c (by omega) (Node.inGrammar_of_mem_childrenWalked ast n hn c hc) w s'
      exact ⟨hout, hcalls ▸ Nested.wrap w w' c hnest⟩
    have hloop := Act.forEach_nested hkids (vis.Visit v (some n) s).2
    refine ⟨w, hw, hloop.2, ?_, ?_⟩
    all_goals
      rw [GoAST_Walk_descend ast vis v w n s hw,
        walkChildren_eq_forEach ast _ w n (Node.enumerated_of_inGrammar hn)]
      simp only [Act.visit, Act.seq]
      rcases hrun : Act.forEach (childrenWalked ast n) (GoAST_Walk ast vis w)
        (vis.Visit v (some n) s).2 with ⟨s₁, c₁, o₁⟩
      rw [hrun] at hloop
      obtain ⟨rfl, _⟩ := hloop
      simp [Act.skip]

/-! ## Runs of the walker -/

theorem GoAST_Walk_skip (ast : GoAst) (vis : Visitor σ V) (v : V) (n : Node) (s : σ)
    (h : (vis.Visit v (some n) s).1 = none) :
    GoAST_Walk ast vis v n s = ⟨(vis.Visit v (some n) s).2, [⟨v, some n⟩], .returned⟩ := by
  rw [GoAST_Walk_eq]
  simp only [Act.visit, h, Act.skip]

theorem GoAST_Walk_calls_head (ast : GoAst) (vis : Visitor σ V) (v : V) (n : Node) (s : σ) :
    (GoAST_Walk ast vis v n s).calls.head? = some ⟨v, some n⟩ := by
  rw [GoAST_Walk_eq]
  rfl

theorem walkExprList_cons (ast : GoAst) (walk : V → Node → Act σ V) (v : V) (x : Node)
    (rest : List Node) :
    walkExprList ast walk v (x :: rest) =
      walk v (NewDummyNode "ExprList" (x.Pos ast)
        (((x :: rest).getLast (List.cons_ne_nil x rest)).End ast) (x :: rest)) := by
  rw [walkExprList_eq_forEach]
  simp [exprListNode, Act.forEach_cons, Act.forEach_nil, Act.seq_skip_right]

theorem Act.forEach_returns {l : List Node} {f : Node → Act σ V}
    (h : ∀ c ∈ l, ∀ s, (f c s).out = .returned) (s : σ) :
    (Act.forEach l f s).out = .returned := by
  induction l generalizing s with
  | nil => rfl
  | cons x l ih =>
    have hx := h x (List.mem_cons_self x l) s
    have hl := ih (fun c hc => h c (List.mem_cons_of_mem x hc))
    simp only [Act.forEach_cons, Act.seq]
    rcases hfx : f x s with ⟨s₁, c₁, o₁⟩
    rw [hfx] at hx
    simp only at hx
    subst hx
    exact hl s₁

theorem GoAST_Walk_returns (ast : GoAst) (vis : Visitor σ V) (d : Nat) :
    ∀ (n : Node), n.depth ≤ d → n.inGrammar = true → ∀ (v : V) (s : σ),
      (GoAST_Walk ast vis v n s).out = .returned := by
  induction d with
  | zero => intro n hd; have := n.depth_pos; omega
  | succ d ih =>
    intro n hd hn v s
    cases hw : (vis.Visit v (some n) s).1 with
    | none => rw [GoAST_Walk_skip ast vis v n s hw]
    | some w =>
      have hloop := Act.forEach_returns (f := GoAST_Walk ast vis w)
        (fun c hc s' => ih c
          (by have := Node.depth_lt_of_mem_childrenWalked ast n c hc; omega)
          (Node.inGrammar_of_mem_childrenWalked ast n hn c hc) w s')
        (vis.Visit v (some n) s).2
      rw [GoAST_Walk_descend ast vis v w n s hw,
        walkChildren_eq_forEach ast _ w n (Node.enumerated_of_inGrammar hn)]
      simp only [Act.visit, Act.seq]
      rcases hrun : Act.forEach (childrenWalked ast n) (GoAST_Walk ast vis w)
        (vis.Visit v (some n) s).2 with ⟨s₁, c₁, o₁⟩
      rw [hrun] at hloop
      simp only at hloop
      subst hloop
      simp [Act.skip]

theorem Act.forEach_out_ne_outOfFuel {l : List Node} {f : Node → Act σ V}
    (h : ∀ c ∈ l, ∀ s, (f c s).out ≠ .outOfFuel) (s : σ) :
    (Act.forEach l f s).out ≠ .outOfFuel := by
  induction l generalizing s with
  | nil => simp [Act.forEach_nil, Act.skip]
  | cons x l ih =>
    have hx := h x (List.mem_cons_self x l) s
    have hl := ih (fun c hc => h c (List.mem_cons_of_mem x hc))
    simp only [Act.forEach_cons, Act.seq]
    rcases hfx : f x s with ⟨s₁, c₁, o₁⟩
    rw [hfx] at hx
    cases o₁ with
    | returned => exact hl s₁
    | panicked p m => simp
    | outOfFuel => exact absurd rfl hx

/-- The budget `GoAST_Walk` gives itself is enough: its run never stops for lack of budget. -/
theorem GoAST_Walk_out_ne_outOfFuel (ast : GoAst) (vis : Visitor σ V) (d : Nat) :
    ∀ (n : Node), n.depth ≤ d → ∀ (v : V) (s : σ),
      (GoAST_Walk ast vis v n s).out ≠ .outOfFuel := by
  induction d with
  | zero => intro n hd; have := n.depth_pos; omega
  | succ d ih =>
    intro n hd v s
    cases hw : (vis.Visit v (some n) s).1 with
    | none => rw [GoAST_Walk_skip ast vis v n s hw]; simp
    | some w =>
      rw [GoAST_Walk_descend ast vis v w n s hw]
      cases hn : n.enumerated with
      | false =>
        cases n <;> simp [Node.enumerated] at hn
        simp [Act.visit, Act.seq, walkChildren, Act.panic]
      | true =>
        have hloop := Act.forEach_out_ne_outOfFuel (f := GoAST_Walk ast vis w)
          (fun c hc s' => ih c
            (by have := Node.depth_lt_of_mem_childrenWalked ast n c hc; omega) w s')
          (vis.Visit v (some n) s).2
        rw [walkChildren_eq_forEach ast _ w n hn]
        simp only [Act.visit, Act.seq]
        rcases hrun : Act.forEach (childrenWalked ast n) (GoAST_Walk ast vis w)
          (vis.Visit v (some n) s).2 with ⟨s₁, c₁, o₁⟩
        rw [hrun] at hloop
        cases o₁ with
        | returned => simp [Act.skip]
        | panicked p m => simp
        | outOfFuel => exact absurd rfl hloop

/-! ## Which visitor receives which call -/

/-- Calls of a loop come from the calls of its walks. -/
theorem Act.forEach_calls_forall {l : List Node} {f : Node → Act σ V} {P : Call V → Prop}
    (h : ∀ c ∈ l, ∀ s, ∀ call ∈ (f c s).calls, P call) (s : σ) :
    ∀ call ∈ (Act.forEach l f s).calls, P call := by
  induction l generalizing s with
  | nil => intro call hcall; simp [Act.forEach_nil, Act.skip] at hcall
  | cons x l ih =>
    have hx := h x (List.mem_cons_self x l) s
    have hl := ih (fun c hc => h c (List.mem_cons_of_mem x hc))
    simp only [Act.forEach_cons, Act.seq]
    rcases hfx : f x s with ⟨s₁, c₁, o₁⟩
    rw [hfx] at hx
    cases o₁ with
    | returned =>
      intro call hcall
      rcases List.mem_append.mp hcall with h₁ | h₂
      · exact hx call h₁
      · exact hl s₁ call h₂
    | panicked p m => exact hx
    | outOfFuel => exact hx

/-- The calls of a walk after the first one, when the visitor does not skip: the calls of the
walks of the children, and the end signal if they return. -/
theorem GoAST_Walk_calls_forall (ast : GoAst) (vis : Visitor σ V) (P : V → Node → Prop)
    (Q : Call V → Prop)
    (hstep : ∀ u n t w, P u n → (vis.Visit u (some n) t).1 = some w →
      ∀ c ∈ childrenWalked ast n, P w c)
    (hnode : ∀ u n, P u n → Q ⟨u, some n⟩)
    (hend : ∀ u n t w, P u n → (vis.Visit u (some n) t).1 = some w → Q ⟨w, none⟩)
    (d : Nat) :
    ∀ (n : Node), n.depth ≤ d → ∀ (u : V) (s : σ), P u n →
      ∀ call ∈ (GoAST_Walk ast vis u n s).calls, Q call := by
  induction d with
  | zero => intro n hd; have := n.depth_pos; omega
  | succ d ih =>
    intro n hd u s hP
    cases hw : (vis.Visit u (some n) s).1 with
    | none =>
      rw [GoAST_Walk_skip ast vis u n s hw]
      intro call hcall
      simp only [List.mem_singleton] at hcall
      subst hcall
      exact hnode u n hP
    | some w =>
      rw [GoAST_Walk_descend ast vis u w n s hw]
      cases hn : n.enumerated with
      | false =>
        cases n <;> simp [Node.enumerated] at hn
        intro call hcall
        simp [Act.visit, Act.seq, walkChildren, Act.panic] at hcall
        subst hcall
        exact hnode u _ hP
      | true =>
        have hloop := Act.forEach_calls_forall (f := GoAST_Walk ast vis w) (P := Q)
          (fun c hc s' => ih c
            (by have := Node.depth_lt_of_mem_childrenWalked ast n c hc; omega) w s'
            (hstep u n s w hP hw c hc))
          (vis.Visit u (some n) s).2
        rw [walkChildren_eq_forEach ast _ w n hn]
        simp only [Act.visit, Act.seq]
        rcases hrun : Act.forEach (childrenWalked ast n) (GoAST_Walk ast vis w)
          (vis.Visit u (some n) s).2 with ⟨s₁, c₁, o₁⟩
        rw [hrun] at hloop
        simp only at hloop
        intro call hcall
        cases o₁ with
        | returned =>
          simp only [Act.skip, List.mem_cons, List.mem_append, List.mem_singleton,
            List.append_nil, List.not_mem_nil, or_false] at hcall
          rcases hcall with rfl | h₁ | rfl
          · exact hnode u n hP
          · exact hloop call h₁
          · exact hend u n s w hP hw
        | panicked p m =>
          simp only [List.mem_cons] at hcall
          rcases hcall with rfl | h₁
          · exact hnode u n hP
          · exact hloop call h₁
        | outOfFuel =>
          simp only [List.mem_cons] at hcall
          rcases hcall with rfl | h₁
          · exact hnode u n hP
          · exact hloop call h₁

theorem GoAST_Walk_tail_recv (ast : GoAst) (vis : Visitor σ V) (R : V → Prop)
    (hR : ∀ u m t u', R u → (vis.Visit u (some m) t).1 = some u' → R u')
    (v w : V) (node : Node) (s : σ) (h : (vis.Visit v (some node) s).1 = some w) (hw : R w) :
    ∀ call ∈ (GoAST_Walk ast vis v node s).calls.tail, R call.recv := by
  have hwalk : ∀ (c : Node) (s' : σ), ∀ call ∈ (GoAST_Walk ast vis w c s').calls, R call.recv :=
    fun c s' => GoAST_Walk_calls_forall ast vis (fun u _ => R u) (fun call => R call.recv)
      (fun u n t w' hu hv _ _ => hR u n t w' hu hv) (fun _ _ hu => hu)
      (fun u n t w' hu hv => hR u n t w' hu hv) c.depth c (Nat.le_refl _) w s' hw
  rw [GoAST_Walk_descend ast vis v w node s h]
  cases hn : node.enumerated with
  | false =>
    cases node <;> simp [Node.enumerated] at hn
    simp [Act.visit, Act.seq, walkChildren, Act.panic]
  | true =>
    have hloop := Act.forEach_calls_forall (f := GoAST_Walk ast vis w)
      (P := fun call => R call.recv) (l := childrenWalked ast node)
      (fun c _ s' => hwalk c s') (vis.Visit v (some node) s).2
    rw [walkChildren_eq_forEach ast _ w node hn]
    simp only [Act.visit, Act.seq]
    rcases hrun : Act.forEach (childrenWalked ast node) (GoAST_Walk ast vis w)
      (vis.Visit v (some node) s).2 with ⟨s₁, c₁, o₁⟩
    rw [hrun] at hloop
    simp only at hloop
    intro call hcall
    cases o₁ with
    | returned =>
      simp only [Act.skip, List.tail_cons, List.mem_append, List.mem_singleton,
        List.append_nil] at hcall
      rcases hcall with h₁ | rfl
      · exact hloop call h₁
      · exact hw
    | panicked p m => exact hloop call hcall
    | outOfFuel => exact hloop call hcall

theorem GoAST_Walk_getLast (ast : GoAst) (vis : Visitor σ V) (v w : V) (node : Node) (s : σ)
    (h : (vis.Visit v (some node) s).1 = some w)
    (hout : (GoAST_Walk ast vis v node s).out = .returned) :
    (GoAST_Walk ast vis v node s).calls.getLast? = some ⟨w, none⟩ := by
  rw [GoAST_Walk_descend ast vis v w node s h] at hout ⊢
  simp only [Act.visit, Act.seq] at hout ⊢
  rcases hrun : walkChildren ast (GoAST_Walk ast vis) w node (vis.Visit v (some node) s).2
    with ⟨s₁, c₁, o₁⟩
  rw [hrun] at hout
  cases o₁ with
  | returned =>
    simp only [Act.skip]
    rw [← List.cons_append, List.getLast?_concat]
  | panicked p m => simp at hout
  | outOfFuel => simp at hout

/-! ## The order of map iteration -/

theorem Node.Pos_congr {ast₁ ast₂ : GoAst} (h : ast₁.Pos = ast₂.Pos) (n : Node) :
    n.Pos ast₁ = n.Pos ast₂ := by
  cases n <;> simp [Node.Pos, h]

theorem Node.End_congr {ast₁ ast₂ : GoAst} (h : ast₁.End = ast₂.End) (n : Node) :
    n.End ast₁ = n.End ast₂ := by
  cases n <;> simp [Node.End, h]

theorem exprListNode_congr {ast₁ ast₂ : GoAst} (hPos : ast₁.Pos = ast₂.Pos)
    (hEnd : ast₁.End = ast₂.End) (l : List Node) :
    exprListNode ast₁ l = exprListNode ast₂ l := by
  cases l with
  | nil => rfl
  | cons x rest => simp only [exprListNode, Node.Pos_congr hPos, Node.End_congr hEnd]

theorem GoAst.mapOrder_of_length_le_one (ast : GoAst) {files : List Node}
    (h : files.length ≤ 1) : ast.mapOrder files = files := by
  have hperm := ast.mapOrder_perm files
  match files, h, hperm with
  | [], _, hperm => exact List.perm_nil.mp hperm
  | [f], _, hperm => exact List.perm_singleton.mp hperm

theorem Node.forall_mem_singleFiles (l : List Node) :
    (∀ c ∈ l, c.singleFiles = true) ↔ Node.singleFilesList l = true := by
  induction l with
  | nil => simp [Node.singleFilesList]
  | cons x l ih => simp [Node.singleFilesList, ih]

theorem Node.singleFilesList_toList (o : Option Node) :
    Node.singleFilesList o.toList = Node.singleFilesOpt o := by
  cases o <;> simp [Node.singleFilesList, Node.singleFilesOpt]

theorem Node.singleFilesList_exprListNode (ast : GoAst) (l : List Node) :
    Node.singleFilesList (exprListNode ast l) = Node.singleFilesList l := by
  cases l <;> simp [exprListNode, NewDummyNode, Node.singleFiles, Node.singleFilesList]

theorem Node.singleFiles_of_mem_childrenWalked (ast : GoAst) (n : Node)
    (h : n.singleFiles = true) : ∀ c ∈ childrenWalked ast n, c.singleFiles = true := by
  cases n <;>
    simp only [childrenWalked, Node.singleFiles, List.forall_mem_append, List.forall_mem_cons,
      List.not_mem_nil, false_imp_iff, implies_true, and_true, Bool.and_eq_true,
      Node.forall_mem_singleFiles, Node.singleFilesList_toList,
      Node.singleFilesList_exprListNode] at h ⊢
  all_goals first
    | trivial
    | tauto
    | skip
  case Package files =>
    refine (Node.forall_mem_singleFiles _).mp fun c hc => ?_
    exact (Node.forall_mem_singleFiles files).mpr h.2 c ((ast.mapOrder_perm files).mem_iff.mp hc)

theorem childrenWalked_congr_of_singleFiles {ast₁ ast₂ : GoAst} (hPos : ast₁.Pos = ast₂.Pos)
    (hEnd : ast₁.End = ast₂.End) (n : Node) (h : n.singleFiles = true) :
    childrenWalked ast₁ n = childrenWalked ast₂ n := by
  cases n <;> simp only [childrenWalked, exprListNode_congr hPos hEnd]
  case Package files =>
    simp only [Node.singleFiles, Bool.and_eq_true, decide_eq_true_eq] at h
    rw [ast₁.mapOrder_of_length_le_one h.1, ast₂.mapOrder_of_length_le_one h.1]

/-- Two runs whose `go/ast` positions agree make the same calls on a tree without a package
of two or more files, whatever the order in which each run enumerates a map. -/
theorem GoAST_Walk_congr_of_singleFiles {ast₁ ast₂ : GoAst} (vis : Visitor σ V)
    (hPos : ast₁.Pos = ast₂.Pos) (hEnd : ast₁.End = ast₂.End) (d : Nat) :
    ∀ (n : Node), n.depth ≤ d → n.singleFiles = true → ∀ (v : V),
      GoAST_Walk ast₁ vis v n = GoAST_Walk ast₂ vis v n := by
  induction d with
  | zero => intro n hd; have := n.depth_pos; omega
  | succ d ih =>
    intro n hd hn v
    rw [GoAST_Walk_eq ast₁, GoAST_Walk_eq ast₂]
    refine congrArg (Act.visit vis v (some n)) (funext fun w => ?_)
    cases w with
    | none => rfl
    | some w =>
      simp only
      refine congrArg (fun a => Act.seq a (Act.visit vis w none fun _ => Act.skip)) ?_
      cases he : n.enumerated with
      | false =>
        cases n <;> simp [Node.enumerated] at he
        rfl
      | true =>
        rw [walkChildren_eq_forEach ast₁ _ w n he, walkChildren_eq_forEach ast₂ _ w n he,
          childrenWalked_congr_of_singleFiles hPos hEnd n hn]
        refine Act.forEach_congr fun c hc => ?_
        have hlt := Node.depth_lt_of_mem_childrenWalked ast₂ n c hc
        exact ih c (by omega) (Node.singleFiles_of_mem_childrenWalked ast₂ n hn c hc) w

theorem Node.forall_mem_sameFileOrder (ast₁ ast₂ : GoAst) (l : List Node) :
    (∀ c ∈ l, Node.sameFileOrder ast₁ ast₂ c) ↔ Node.sameFileOrderList ast₁ ast₂ l := by
  induction l with
  | nil => simp [Node.sameFileOrderList]
  | cons x l ih => simp [Node.sameFileOrderList, ih]

theorem Node.sameFileOrderList_toList (ast₁ ast₂ : GoAst) (o : Option Node) :
    Node.sameFileOrderList ast₁ ast₂ o.toList ↔ Node.sameFileOrderOpt ast₁ ast₂ o := by
  cases o <;> simp [Node.sameFileOrderList, Node.sameFileOrderOpt]

theorem Node.sameFileOrderList_exprListNode (ast₁ ast₂ ast : GoAst) (l : List Node) :
    Node.sameFileOrderList ast₁ ast₂ (exprListNode ast l) ↔
      Node.sameFileOrderList ast₁ ast₂ l := by
  cases l <;> simp [exprListNode, NewDummyNode, Node.sameFileOrder, Node.sameFileOrderList]

theorem Node.sameFileOrder_of_mem_childrenWalked (ast₁ ast₂ ast : GoAst) (n : Node)
    (h : Node.sameFileOrder ast₁ ast₂ n) :
    ∀ c ∈ childrenWalked ast n, Node.sameFileOrder ast₁ ast₂ c := by
  cases n <;>
    simp only [childrenWalked, Node.sameFileOrder, List.forall_mem_append,
      List.forall_mem_cons, List.not_mem_nil, false_imp_iff, implies_true, and_true,
      Node.forall_mem_sameFileOrder, Node.sameFileOrderList_toList,
      Node.sameFileOrderList_exprListNode] at h ⊢
  all_goals first
    | trivial
    | exact h
    | simp only [h, and_self]
    | skip
  case Package files =>
    refine (Node.forall_mem_sameFileOrder _ _ _).mp fun c hc => ?_
    exact (Node.forall_mem_sameFileOrder _ _ files).mpr h.2 c
      ((ast.mapOrder_perm files).mem_iff.mp hc)

theorem childrenWalked_congr_of_sameFileOrder {ast₁ ast₂ : GoAst} (hPos : ast₁.Pos = ast₂.Pos)
    (hEnd : ast₁.End = ast₂.End) (n : Node) (h : Node.sameFileOrder ast₁ ast₂ n) :
    childrenWalked ast₁ n = childrenWalked ast₂ n := by
  cases n <;> simp only [childrenWalked, exprListNode_congr hPos hEnd]
  case Package files => exact h.1

/-- Two runs whose `go/ast` positions agree and that enumerate the `Files` map of every
package of a tree in the same order make the same calls on the tree. -/
theorem GoAST_Walk_congr_of_sameFileOrder {ast₁ ast₂ : GoAst} (vis : Visitor σ V)
    (hPos : ast₁.Pos = ast₂.Pos) (hEnd : ast₁.End = ast₂.End) (d : Nat) :
    ∀ (n : Node), n.depth ≤ d → Node.sameFileOrder ast₁ ast₂ n → ∀ (v : V),
      GoAST_Walk ast₁ vis v n = GoAST_Walk ast₂ vis v n := by
  induction d with
  | zero => intro n hd; have := n.depth_pos; omega
  | succ d ih =>
    intro n hd hn v
    rw [GoAST_Walk_eq ast₁, GoAST_Walk_eq ast₂]
    refine congrArg (Act.visit vis v (some n)) (funext fun w => ?_)
    cases w with
    | none => rfl
    | some w =>
      simp only
      refine congrArg (fun a => Act.seq a (Act.visit vis w none fun _ => Act.skip)) ?_
      cases he : n.enumerated with
      | false =>
        cases n <;> simp [Node.enumerated] at he
        rfl
      | true =>
        rw [walkChildren_eq_forEach ast₁ _ w n he, walkChildren_eq_forEach ast₂ _ w n he,
          childrenWalked_congr_of_sameFileOrder hPos hEnd n hn]
        refine Act.forEach_congr fun c hc => ?_
        have hlt := Node.depth_lt_of_mem_childrenWalked ast₂ n c hc
        exact ih c (by omega) (Node.sameFileOrder_of_mem_childrenWalked ast₁ ast₂ ast₂ n hn c hc) w

/-! ## Synthetic nodes in a walk -/

theorem Node.forall_mem_noDummy (l : List Node) :
    (∀ c ∈ l, c.noDummy = true) ↔ Node.noDummyList l = true := by
  induction l with
  | nil => simp [Node.noDummyList]
  | cons x l ih => simp [Node.noDummyList, ih]

theorem Node.noDummyList_toList (o : Option Node) :
    Node.noDummyList o.toList = Node.noDummyOpt o := by
  cases o <;> simp [Node.noDummyList, Node.noDummyOpt]

/-- The nodes that a walk of a tree without synthetic nodes reaches: the nodes of the tree,
and synthetic nodes named "ExprList" whose list holds nodes of the tree. -/
theorem sourceOrExprList_of_mem_childrenWalked (ast : GoAst) (n : Node)
    (h : n.noDummy = true ∨
      ∃ start end_ list, n = .DummyNode start end_ "ExprList" list ∧
        Node.noDummyList list = true) :
    ∀ c ∈ childrenWalked ast n, c.noDummy = true ∨
      ∃ start end_ list, c = .DummyNode start end_ "ExprList" list ∧
        Node.noDummyList list = true := by
  have hlist : ∀ l : List Node, Node.noDummyList l = true → ∀ c ∈ l, c.noDummy = true ∨
      ∃ start end_ list, c = .DummyNode start end_ "ExprList" list ∧
        Node.noDummyList list = true :=
    fun l hl c hc => Or.inl ((Node.forall_mem_noDummy l).mpr hl c hc)
  have hopt : ∀ o : Option Node, Node.noDummyOpt o = true → ∀ c ∈ o.toList, c.noDummy = true ∨
      ∃ start end_ list, c = .DummyNode start end_ "ExprList" list ∧
        Node.noDummyList list = true :=
    fun o ho => hlist o.toList (by rw [Node.noDummyList_toList]; exact ho)
  have hexpr : ∀ l : List Node, Node.noDummyList l = true → ∀ c ∈ exprListNode ast l,
      c.noDummy = true ∨ ∃ start end_ list, c = .DummyNode start end_ "ExprList" list ∧
        Node.noDummyList list = true := by
    intro l hl c hc
    cases l with
    | nil => simp [exprListNode] at hc
    | cons x rest =>
      simp only [exprListNode, List.mem_singleton] at hc
      exact Or.inr ⟨_, _, _, hc, hl⟩
  rcases h with h | ⟨start, end_, list, rfl, hl⟩
  · cases n <;>
      simp only [childrenWalked, Node.noDummy, List.forall_mem_append, List.forall_mem_cons,
        List.not_mem_nil, false_imp_iff, implies_true, and_true, Bool.and_eq_true,
        Bool.false_eq_true] at h ⊢
    all_goals (repeat' apply And.intro)
    all_goals first
      | exact Or.inl (by simp only [h])
      | exact hopt _ (by simp only [h])
      | exact hexpr _ (by simp only [h])
      | exact hlist _ (by simp only [h])
      | skip
    case Package files =>
      intro c hc
      exact hlist files h c ((ast.mapOrder_perm files).mem_iff.mp hc)
  · exact hlist list hl

/-- Every synthetic node visited by the walk of a tree without synthetic nodes is named
"ExprList". -/
theorem GoAST_Walk_dummy_named (ast : GoAst) (vis : Visitor σ V) (v : V) (root : Node)
    (hroot : root.noDummy = true) (s : σ) :
    ∀ call ∈ (GoAST_Walk ast vis v root s).calls, ∀ d, call.node = some d →
      d.isDummyNode = true → d.dummyName = some "ExprList" := by
  refine GoAST_Walk_calls_forall ast vis
    (fun _ n => n.noDummy = true ∨
      ∃ start end_ list, n = .DummyNode start end_ "ExprList" list ∧
        Node.noDummyList list = true)
    (fun call => ∀ d, call.node = some d → d.isDummyNode = true →
      d.dummyName = some "ExprList")
    (fun _ n _ _ hn _ c hc => sourceOrExprList_of_mem_childrenWalked ast n hn c hc)
    ?_ ?_ root.depth root (Nat.le_refl _) v s (Or.inl hroot)
  · intro u n hn d hd hdummy
    simp only [Option.some.injEq] at hd
    subst hd
    rcases hn with hn | ⟨start, end_, list, rfl, _⟩
    · cases n <;> simp [Node.isDummyNode, Node.noDummy] at hdummy hn
    · rfl
  · intro u n t w _ _ d hd
    simp at hd

/-! ## The entry points -/

section EntryLemmas

variable {E Tree : Type}

theorem lookup_mapAssign_self {α : Type} (m : List (String × α)) (key : String) (x : α) :
    (mapAssign m key x).lookup key = some x := by
  unfold mapAssign
  induction m with
  | nil => simp [List.lookup]
  | cons e m ih =>
    rcases e with ⟨k, y⟩
    by_cases hk : k = key
    · have hb : (k != key) = false := by simp [hk]
      rw [List.filter_cons]
      simp only [hb, Bool.false_eq_true, if_false]
      exact ih
    · have hb : (k != key) = true := by simpa using hk
      have hk' : (key == k) = false := beq_eq_false_iff_ne.mpr (Ne.symm hk)
      rw [List.filter_cons]
      simp only [hb, if_true, List.cons_append, List.lookup, hk']
      exact ih

theorem lookup_mapAssign_of_ne {α : Type} (m : List (String × α)) {key k' : String} (x : α)
    (h : k' ≠ key) : (mapAssign m key x).lookup k' = m.lookup k' := by
  have hne : (k' == key) = false := by simpa using h
  unfold mapAssign
  induction m with
  | nil => simp [List.lookup, hne]
  | cons e m ih =>
    rcases e with ⟨k, y⟩
    by_cases hk : k = key
    · have hb : (k != key) = false := by simp [hk]
      have hk' : (k' == k) = false := by simpa [hk] using h
      rw [List.filter_cons]
      simp only [hb, Bool.false_eq_true, if_false, List.lookup, hk']
      exact ih
    · have hb : (k != key) = true := by simpa using hk
      rw [List.filter_cons]
      simp only [hb, if_true, List.cons_append, List.lookup]
      cases hkk : k' == k with
      | true => rfl
      | false => exact ih

theorem lookup_isSome_iff {α : Type} (m : List (String × α)) (key : String) :
    (m.lookup key).isSome = true ↔ ∃ x, (key, x) ∈ m := by
  induction m with
  | nil => simp [List.lookup]
  | cons e m ih =>
    rcases e with ⟨k, y⟩
    by_cases hk : key = k
    · subst hk
      simp [List.lookup]
    · have hk' : (key == k) = false := by simpa using hk
      simp [List.lookup, hk', ih, hk]

theorem ParseDirectory.loop_cons (ast : GoAst) (deps : Deps σ V E Tree) (name : String)
    (node : Node) (rest : List (String × Node)) (pkgasts : List (String × Option Tree))
    (s : σ) (h : node.inGrammar = true) :
    ParseDirectory.loop ast deps ((name, node) :: rest) pkgasts s =
      ⟨(ParseDirectory.loop ast deps rest
          (mapAssign pkgasts name (deps.AST (deps.New s).1
            (GoAST_Walk ast deps.visitor (deps.New s).1 node (deps.New s).2).store).1)
          (deps.AST (deps.New s).1
            (GoAST_Walk ast deps.visitor (deps.New s).1 node (deps.New s).2).store).2).store,
        (deps.New s).1 :: (ParseDirectory.loop ast deps rest
          (mapAssign pkgasts name (deps.AST (deps.New s).1
            (GoAST_Walk ast deps.visitor (deps.New s).1 node (deps.New s).2).store).1)
          (deps.AST (deps.New s).1
            (GoAST_Walk ast deps.visitor (deps.New s).1 node (deps.New s).2).store).2).created,
        (GoAST_Walk ast deps.visitor (deps.New s).1 node (deps.New s).2).calls ++
          (ParseDirectory.loop ast deps rest
            (mapAssign pkgasts name (deps.AST (deps.New s).1
              (GoAST_Walk ast deps.visitor (deps.New s).1 node (deps.New s).2).store).1)
            (deps.AST (deps.New s).1
              (GoAST_Walk ast deps.visitor (deps.New s).1 node (deps.New s).2).store).2).calls,
        (ParseDirectory.loop ast deps rest
          (mapAssign pkgasts name (deps.AST (deps.New s).1
            (GoAST_Walk ast deps.visitor (deps.New s).1 node (deps.New s).2).store).1)
          (deps.AST (deps.New s).1
            (GoAST_Walk ast deps.visitor (deps.New s).1 node (deps.New s).2).store).2).ended⟩ := by
  have hout := GoAST_Walk_returns ast deps.visitor node.depth node (Nat.le_refl _) h
    (deps.New s).1 (deps.New s).2
  simp only [ParseDirectory.loop, hout]

/-- The loop of `ParseDirectory` over packages of the grammar returns a map and no error; it
makes one visitor per package, the keys of the map are those it had and those of the
packages, and a value it did not have is what `AST()` returns for a fresh visitor after the
walk of a package with that key. -/
theorem ParseDirectory.loop_spec (ast : GoAst) (deps : Deps σ V E Tree) :
    ∀ (pkgs : List (String × Node)) (pkgasts : List (String × Option Tree)) (s : σ),
      (∀ entry ∈ pkgs, entry.2.inGrammar = true) →
      ∃ m, (ParseDirectory.loop ast deps pkgs pkgasts s).ended = .returned (some m) none ∧
        (ParseDirectory.loop ast deps pkgs pkgasts s).created.length = pkgs.length ∧
        (∀ v ∈ (ParseDirectory.loop ast deps pkgs pkgasts s).created,
          ∃ s₀, v = (deps.New s₀).1) ∧
        (∀ key, (m.lookup key).isSome = true ↔
          ((pkgasts.lookup key).isSome = true ∨ ∃ node, (key, node) ∈ pkgs)) ∧
        (∀ key tree, m.lookup key = some tree →
          pkgasts.lookup key = some tree ∨
          ∃ node s₀, (key, node) ∈ pkgs ∧
            tree = (deps.AST (deps.New s₀).1
              (GoAST_Walk ast deps.visitor (deps.New s₀).1 node (deps.New s₀).2).store).1) := by
  intro pkgs
  induction pkgs with
  | nil =>
    intro pkgasts s _
    exact ⟨pkgasts, rfl, rfl, by simp [ParseDirectory.loop], by simp,
      fun key tree h => Or.inl h⟩
  | cons entry rest ih =>
    intro pkgasts s hg
    rcases entry with ⟨name, node⟩
    have hnode : node.inGrammar = true := hg (name, node) (List.mem_cons_self _ _)
    have hrest : ∀ entry ∈ rest, entry.2.inGrammar = true :=
      fun e he => hg e (List.mem_cons_of_mem _ he)
    rw [ParseDirectory.loop_cons ast deps name node rest pkgasts s hnode]
    obtain ⟨m, hended, hlen, hnew, hkeys, hvals⟩ := ih
      (mapAssign pkgasts name (deps.AST (deps.New s).1
        (GoAST_Walk ast deps.visitor (deps.New s).1 node (deps.New s).2).store).1)
      (deps.AST (deps.New s).1
        (GoAST_Walk ast deps.visitor (deps.New s).1 node (deps.New s).2).store).2 hrest
    refine ⟨m, hended, by simp [hlen], ?_, ?_, ?_⟩
    · intro v hv
      rcases List.mem_cons.mp hv with rfl | hv
      · exact ⟨s, rfl⟩
      · exact hnew v hv
    · intro key
      rw [hkeys key]
      by_cases hk : key = name
      · subst hk
        simp [lookup_mapAssign_self]
      · rw [lookup_mapAssign_of_ne pkgasts _ hk]
        simp [hk]
    · intro key tree hm
      rcases hvals key tree hm with h | ⟨n', s₀, hmem, ht⟩
      · by_cases hk : key = name
        · subst hk
          rw [lookup_mapAssign_self] at h
          exact Or.inr ⟨node, s, List.mem_cons_self _ _, (Option.some.inj h).symm⟩
        · rw [lookup_mapAssign_of_ne pkgasts _ hk] at h
          exact Or.inl h
      · exact Or.inr ⟨n', s₀, List.mem_cons_of_mem _ hmem, ht⟩

/-- A walk returns or panics with "ast.Walk". -/
theorem GoAST_Walk_out_cases (ast : GoAst) (vis : Visitor σ V) (d : Nat) :
    ∀ (n : Node), n.depth ≤ d → ∀ (v : V) (s : σ),
      (GoAST_Walk ast vis v n s).out = .returned ∨
      ∃ printed, (GoAST_Walk ast vis v n s).out = .panicked printed "ast.Walk" := by
  induction d with
  | zero => intro n hd; have := n.depth_pos; omega
  | succ d ih =>
    intro n hd v s
    cases hw : (vis.Visit v (some n) s).1 with
    | none => rw [GoAST_Walk_skip ast vis v n s hw]; exact Or.inl rfl
    | some w =>
      rw [GoAST_Walk_descend ast vis v w n s hw]
      cases hn : n.enumerated with
      | false =>
        cases n <;> simp [Node.enumerated] at hn
        exact Or.inr ⟨_, rfl⟩
      | true =>
        have hloop : ∀ (l : List Node), (∀ c ∈ l, c.depth ≤ d) → ∀ s',
            (Act.forEach l (GoAST_Walk ast vis w) s').out = .returned ∨
            ∃ printed, (Act.forEach l (GoAST_Walk ast vis w) s').out =
              .panicked printed "ast.Walk" := by
          intro l
          induction l with
          | nil => intro _ s'; exact Or.inl rfl
          | cons x l ihl =>
            intro hl s'
            have hx := ih x (hl x (List.mem_cons_self x l)) w s'
            have hrest := ihl (fun c hc => hl c (List.mem_cons_of_mem x hc))
            simp only [Act.forEach_cons, Act.seq]
            rcases hfx : GoAST_Walk ast vis w x s' with ⟨s₁, c₁, o₁⟩
            rw [hfx] at hx
            cases o₁ with
            | returned => exact hrest s₁
            | panicked p m => exact hx
            | outOfFuel => exact hx
        have hkids := hloop (childrenWalked ast n)
          (fun c hc => by have := Node.depth_lt_of_mem_childrenWalked ast n c hc; omega)
          (vis.Visit v (some n) s).2
        rw [walkChildren_eq_forEach ast _ w n hn]
        simp only [Act.visit, Act.seq]
        rcases hrun : Act.forEach (childrenWalked ast n) (GoAST_Walk ast vis w)
          (vis.Visit v (some n) s).2 with ⟨s₁, c₁, o₁⟩
        rw [hrun] at hkids
        cases o₁ with
        | returned => exact Or.inl rfl
        | panicked p m => exact hkids
        | outOfFuel => exact hkids

theorem ParseDirectory.loop_cons_of_returned (ast : GoAst) (deps : Deps σ V E Tree)
    (name : String) (node : Node) (rest : List (String × Node))
    (pkgasts : List (String × Option Tree)) (s : σ)
    (h : (GoAST_Walk ast deps.visitor (deps.New s).1 node (deps.New s).2).out = .returned) :
    ParseDirectory.loop ast deps ((name, node) :: rest) pkgasts s =
      ⟨(ParseDirectory.loop ast deps rest
          (mapAssign pkgasts name (deps.AST (deps.New s).1
            (GoAST_Walk ast deps.visitor (deps.New s).1 node (deps.New s).2).store).1)
          (deps.AST (deps.New s).1
            (GoAST_Walk ast deps.visitor (deps.New s).1 node (deps.New s).2).store).2).store,
        (deps.New s).1 :: (ParseDirectory.loop ast deps rest
          (mapAssign pkgasts name (deps.AST (deps.New s).1
            (GoAST_Walk ast deps.visitor (deps.New s).1 node (deps.New s).2).store).1)
          (deps.AST (deps.New s).1
            (GoAST_Walk ast deps.visitor (deps.New s).1 node (deps.New s).2).store).2).created,
        (GoAST_Walk ast deps.visitor (deps.New s).1 node (deps.New s).2).calls ++
          (ParseDirectory.loop ast deps rest
            (mapAssign pkgasts name (deps.AST (deps.New s).1
              (GoAST_Walk ast deps.visitor (deps.New s).1 node (deps.New s).2).store).1)
            (deps.AST (deps.New s).1
              (GoAST_Walk ast deps.visitor (deps.New s).1 node (deps.New s).2).store).2).calls,
        (ParseDirectory.loop ast deps rest
          (mapAssign pkgasts name (deps.AST (deps.New s).1
            (GoAST_Walk ast deps.visitor (deps.New s).1 node (deps.New s).2).store).1)
          (deps.AST (deps.New s).1
            (GoAST_Walk ast deps.visitor (deps.New s).1 node (deps.New s).2).store).2).ended⟩ := by
  simp only [ParseDirectory.loop, h]

theorem ParseDirectory.loop_cons_of_panicked (ast : GoAst) (deps : Deps σ V E Tree)
    (name : String) (node : Node) (rest : List (String × Node))
    (pkgasts : List (String × Option Tree)) (s : σ) (printed value : String)
    (h : (GoAST_Walk ast deps.visitor (deps.New s).1 node (deps.New s).2).out =
      .panicked printed value) :
    ParseDirectory.loop ast deps ((name, node) :: rest) pkgasts s =
      ⟨(GoAST_Walk ast deps.visitor (deps.New s).1 node (deps.New s).2).store,
        [(deps.New s).1],
        (GoAST_Walk ast deps.visitor (deps.New s).1 node (deps.New s).2).calls,
        .panicked printed value⟩ := by
  simp only [ParseDirectory.loop, h]

/-- Whenever the loop of `ParseDirectory` returns, it returns a map and no error; it has made
one visitor per package, the keys of the map are those it had and those of the packages, and
a value it did not have is what `AST()` returns for a fresh visitor after the walk of a
package with that key. -/
theorem ParseDirectory.loop_of_returned (ast : GoAst) (deps : Deps σ V E Tree) :
    ∀ (pkgs : List (String × Node)) (pkgasts : List (String × Option Tree)) (s : σ)
      (m : Option (List (String × Option Tree))) (err : Option (Error E)),
      (ParseDirectory.loop ast deps pkgs pkgasts s).ended = .returned m err →
      err = none ∧ ∃ result, m = some result ∧
        (ParseDirectory.loop ast deps pkgs pkgasts s).created.length = pkgs.length ∧
        (∀ v ∈ (ParseDirectory.loop ast deps pkgs pkgasts s).created,
          ∃ s₀, v = (deps.New s₀).1) ∧
        (∀ key, (result.lookup key).isSome = true ↔
          ((pkgasts.lookup key).isSome = true ∨ ∃ node, (key, node) ∈ pkgs)) ∧
        (∀ key tree, result.lookup key = some tree →
          pkgasts.lookup key = some tree ∨
          ∃ node s₀, (key, node) ∈ pkgs ∧
            tree = (deps.AST (deps.New s₀).1
              (GoAST_Walk ast deps.visitor (deps.New s₀).1 node (deps.New s₀).2).store).1) := by
  intro pkgs
  induction pkgs with
  | nil =>
    intro pkgasts s m err h
    simp only [ParseDirectory.loop, Ended.returned.injEq] at h
    obtain ⟨rfl, rfl⟩ := h
    exact ⟨rfl, pkgasts, rfl, rfl, by simp [ParseDirectory.loop], by simp,
      fun key tree h => Or.inl h⟩
  | cons entry rest ih =>
    intro pkgasts s m err h
    rcases entry with ⟨name, node⟩
    rcases GoAST_Walk_out_cases ast deps.visitor node.depth node (Nat.le_refl _)
      (deps.New s).1 (deps.New s).2 with hout | ⟨printed, hout⟩
    · rw [ParseDirectory.loop_cons_of_returned ast deps name node rest pkgasts s hout] at h ⊢
      simp only at h
      obtain ⟨herr, result, hm, hlen, hnew, hkeys, hvals⟩ := ih _ _ m err h
      refine ⟨herr, result, hm, by simp [hlen], ?_, ?_, ?_⟩
      · intro v hv
        rcases List.mem_cons.mp hv with rfl | hv
        · exact ⟨s, rfl⟩
        · exact hnew v hv
      · intro key
        rw [hkeys key]
        by_cases hk : key = name
        · subst hk
          simp [lookup_mapAssign_self]
        · rw [lookup_mapAssign_of_ne pkgasts _ hk]
          simp [hk]
      · intro key tree hres
        rcases hvals key tree hres with h' | ⟨n', s₀, hmem, ht⟩
        · by_cases hk : key = name
          · subst hk
            rw [lookup_mapAssign_self] at h'
            exact Or.inr ⟨node, s, List.mem_cons_self _ _, (Option.some.inj h').symm⟩
          · rw [lookup_mapAssign_of_ne pkgasts _ hk] at h'
            exact Or.inl h'
        · exact Or.inr ⟨n', s₀, List.mem_cons_of_mem _ hmem, ht⟩
    · rw [ParseDirectory.loop_cons_of_panicked ast deps name node rest pkgasts s _ _ hout] at h
      simp at h

/-- The loop of `ParseDirectory` returns, or a walk in it panics with "ast.Walk". -/
theorem ParseDirectory.loop_ended_cases (ast : GoAst) (deps : Deps σ V E Tree) :
    ∀ (pkgs : List (String × Node)) (pkgasts : List (String × Option Tree)) (s : σ),
      (∃ m err, (ParseDirectory.loop ast deps pkgs pkgasts s).ended = .returned m err) ∨
      ∃ printed, (ParseDirectory.loop ast deps pkgs pkgasts s).ended =
        .panicked printed "ast.Walk" := by
  intro pkgs
  induction pkgs with
  | nil => intro pkgasts s; exact Or.inl ⟨_, _, rfl⟩
  | cons entry rest ih =>
    intro pkgasts s
    rcases entry with ⟨name, node⟩
    rcases GoAST_Walk_out_cases ast deps.visitor node.depth node (Nat.le_refl _)
      (deps.New s).1 (deps.New s).2 with hout | ⟨printed, hout⟩
    · rw [ParseDirectory.loop_cons_of_returned ast deps name node rest pkgasts s hout]
      exact ih _ _
    · rw [ParseDirectory.loop_cons_of_panicked ast deps name node rest pkgasts s _ _ hout]
      exact Or.inr ⟨printed, rfl⟩

end EntryLemmas

theorem NeverSkips_levelVisitor : NeverSkips levelVisitor := fun _ _ _ h => nomatch h

end Lemmas

/-! ## The claims -/

section Claims

variable {σ V : Type}

/-- C1: on a source tree (every node has a type the switch enumerates; the root and the
children that are walked without a guard are present by the type `Node`), for a visitor that
never returns nil on a node, `GoAST_Walk(v, root)` returns and its calls are `Visit(root)`,
then the calls of the walks of the children, in order, with the visitor `w` that `Visit(root)`
returned, then one `w.Visit(nil)`; the whole sequence is well nested, it has as many
`Visit(nil)` calls as calls with a node, and no prefix of it has more `Visit(nil)` calls than
calls with a node. -/
theorem C1_calls_well_nested (ast : GoAst) (vis : Visitor σ V) (hvis : NeverSkips vis)
    (root : Node) (hroot : root.inGrammar = true) (v : V) (s : σ) :
    ∃ w, (vis.Visit v (some root) s).1 = some w ∧
      (GoAST_Walk ast vis v root s).out = .returned ∧
      (GoAST_Walk ast vis v root s).calls = ⟨v, some root⟩ ::
        (Act.forEach (childrenWalked ast root) (GoAST_Walk ast vis w)
          (vis.Visit v (some root) s).2).calls ++ [⟨w, none⟩] ∧
      Nested (GoAST_Walk ast vis v root s).calls ∧
      endCalls (GoAST_Walk ast vis v root s).calls =
        nodeCalls (GoAST_Walk ast vis v root s).calls ∧
      ∀ k, endCalls ((GoAST_Walk ast vis v root s).calls.take k) ≤
        nodeCalls ((GoAST_Walk ast vis v root s).calls.take k) := by
  obtain ⟨w, hw, hinner, hout, hcalls⟩ :=
    GoAST_Walk_nested ast vis hvis root.depth root (Nat.le_refl _) hroot v s
  have hnest : Nested (GoAST_Walk ast vis v root s).calls := hcalls ▸ Nested.wrap v w root hinner
  exact ⟨w, hw, hout, hcalls, hnest, hnest.endCalls_eq, hnest.endCalls_take_le⟩

/-- C1 at the function declaration `func (r) f() { return a, 1 }` with the visitor that
answers visitor `k` with visitor `k + 1`. -/
theorem C1_witness :
    NeverSkips levelVisitor ∧ exampleFuncDecl.inGrammar = true ∧
    ∃ w, (levelVisitor.Visit 0 (some exampleFuncDecl) 0).1 = some w ∧
      (GoAST_Walk exampleAst levelVisitor 0 exampleFuncDecl 0).out = .returned ∧
      (GoAST_Walk exampleAst levelVisitor 0 exampleFuncDecl 0).calls =
        ⟨0, some exampleFuncDecl⟩ ::
        (Act.forEach (childrenWalked exampleAst exampleFuncDecl)
          (GoAST_Walk exampleAst levelVisitor w)
          (levelVisitor.Visit 0 (some exampleFuncDecl) 0).2).calls ++ [⟨w, none⟩] ∧
      Nested (GoAST_Walk exampleAst levelVisitor 0 exampleFuncDecl 0).calls ∧
      endCalls (GoAST_Walk exampleAst levelVisitor 0 exampleFuncDecl 0).calls =
        nodeCalls (GoAST_Walk exampleAst levelVisitor 0 exampleFuncDecl 0).calls ∧
      ∀ k, endCalls ((GoAST_Walk exampleAst levelVisitor 0 exampleFuncDecl 0).calls.take k) ≤
        nodeCalls ((GoAST_Walk exampleAst levelVisitor 0 exampleFuncDecl 0).calls.take k) :=
  ⟨NeverSkips_levelVisitor, rfl,
    C1_calls_well_nested exampleAst levelVisitor NeverSkips_levelVisitor exampleFuncDecl rfl
      0 0⟩

/-- C2: when `v.Visit(node)` returns nil, `GoAST_Walk(v, node)` returns after that single
call: the sequence of calls is `Visit(node)` alone, so no descendant and no synthetic node
is visited and no `Visit(nil)` is sent. -/
theorem C2_skip_makes_one_call (ast : GoAst) (vis : Visitor σ V) (v : V) (node : Node) (s : σ)
    (h : (vis.Visit v (some node) s).1 = none) :
    GoAST_Walk ast vis v node s =
      ⟨(vis.Visit v (some node) s).2, [⟨v, some node⟩], .returned⟩ := by
  rw [GoAST_Walk_eq]
  simp only [Act.visit, h, Act.skip]

/-- C2 at the function declaration `func (r) f() { return a, 1 }` with the visitor that
always returns nil. -/
theorem C2_witness :
    (skipVisitor.Visit 0 (some exampleFuncDecl) 0).1 = none ∧
    GoAST_Walk exampleAst skipVisitor 0 exampleFuncDecl 0 =
      ⟨1, [⟨0, some exampleFuncDecl⟩], .returned⟩ :=
  ⟨rfl, C2_skip_makes_one_call exampleAst skipVisitor 0 exampleFuncDecl 0 rfl⟩

/-- C3 fails as stated: the two statements of the block `{ ; <bad> }` are visited directly,
as children of the block (by the visitor that `Visit(block)` returned), and no synthetic
node is visited. -/
theorem C3_counterexample_statements_visited_directly :
    (GoAST_Walk exampleAst levelVisitor 0 (.BlockStmt [.EmptyStmt, .BadStmt]) 0).calls =
      [⟨0, some (.BlockStmt [.EmptyStmt, .BadStmt])⟩,
        ⟨1, some .EmptyStmt⟩, ⟨2, none⟩,
        ⟨1, some .BadStmt⟩, ⟨2, none⟩,
        ⟨1, none⟩] ∧
    ¬ ∃ c ∈ (GoAST_Walk exampleAst levelVisitor 0 (.BlockStmt [.EmptyStmt, .BadStmt]) 0).calls,
        ∃ d, c.node = some d ∧ d.isDummyNode = true := by
  refine ⟨rfl, ?_⟩
  rintro ⟨c, hc, d, hd, hdummy⟩
  have hcalls : (GoAST_Walk exampleAst levelVisitor 0 (.BlockStmt [.EmptyStmt, .BadStmt]) 0).calls =
      [⟨0, some (.BlockStmt [.EmptyStmt, .BadStmt])⟩,
        ⟨1, some .EmptyStmt⟩, ⟨2, none⟩,
        ⟨1, some .BadStmt⟩, ⟨2, none⟩,
        ⟨1, none⟩] := rfl
  rw [hcalls] at hc
  simp only [List.mem_cons, List.mem_singleton, List.not_mem_nil, or_false] at hc
  rcases hc with rfl | rfl | rfl | rfl | rfl | rfl <;> simp at hd <;> subst hd <;>
    simp [Node.isDummyNode] at hdummy

/-- C3, amended: only the expression lists handled by `walkExprList` are wrapped.  A
non-empty one is walked as one synthetic node, whose children are its elements; the switch
walks `CompositeLit.Elts`, `CallExpr.Args`, `AssignStmt.Lhs`, `AssignStmt.Rhs`,
`ReturnStmt.Results`, `CaseClause.List` and `ValueSpec.Values` in this way.  The statement,
declaration, identifier, field and spec lists, the comments of a comment group and the files
of a package are walked element by element, each element as a child of the node itself.
Nothing is said here of `File.Comments`: the file is taken without comment groups. -/
theorem C3_only_expression_lists_are_wrapped (ast : GoAst) (walk : V → Node → Act σ V)
    (v : V) :
    (∀ x rest, walkExprList ast walk v (x :: rest) =
      walk v (NewDummyNode "ExprList" (x.Pos ast)
        (((x :: rest).getLast (List.cons_ne_nil x rest)).End ast) (x :: rest))) ∧
    (∀ start end_ name list,
      walkChildren ast walk v (.DummyNode start end_ name list) = Act.forEach list (walk v)) ∧
    (∀ typ elts, walkChildren ast walk v (.CompositeLit typ elts) =
      Act.seq (Act.ifNotNil typ (walk v)) (walkExprList ast walk v elts)) ∧
    (∀ fn args, walkChildren ast walk v (.CallExpr fn args) =
      Act.seq (walk v fn) (walkExprList ast walk v args)) ∧
    (∀ lhs rhs, walkChildren ast walk v (.AssignStmt lhs rhs) =
      Act.seq (walkExprList ast walk v lhs) (walkExprList ast walk v rhs)) ∧
    (∀ results, walkChildren ast walk v (.ReturnStmt results) =
      walkExprList ast walk v results) ∧
    (∀ list body, walkChildren ast walk v (.CaseClause list body) =
      Act.seq (walkExprList ast walk v list) (Act.forEach body (walk v))) ∧
    (∀ doc names typ values comment,
      walkChildren ast walk v (.ValueSpec doc names typ values comment) =
        Act.seq (Act.forEach (doc.toList ++ names ++ typ.toList) (walk v))
          (Act.seq (walkExprList ast walk v values) (Act.forEach comment.toList (walk v)))) ∧
    (∀ list, walkChildren ast walk v (.BlockStmt list) = Act.forEach list (walk v)) ∧
    (∀ comm body, walkChildren ast walk v (.CommClause comm body) =
      Act.forEach (comm.toList ++ body) (walk v)) ∧
    (∀ doc specs, walkChildren ast walk v (.GenDecl doc specs) =
      Act.forEach (doc.toList ++ specs) (walk v)) ∧
    (∀ doc name decls, walkChildren ast walk v (.File doc name decls []) =
      Act.forEach (doc.toList ++ [name] ++ decls) (walk v)) ∧
    (∀ doc names typ tag comment, walkChildren ast walk v (.Field doc names typ tag comment) =
      Act.forEach (doc.toList ++ names ++ [typ] ++ tag.toList ++ comment.toList) (walk v)) ∧
    (∀ list, walkChildren ast walk v (.FieldList list) = Act.forEach list (walk v)) ∧
    (∀ list, walkChildren ast walk v (.CommentGroup list) = Act.forEach list (walk v)) ∧
    (∀ files, walkChildren ast walk v (.Package files) =
      Act.forEach (ast.mapOrder files) (walk v)) := by
  refine ⟨walkExprList_cons ast walk v, ?_, ?_, ?_, ?_, ?_, ?_, ?_, ?_, ?_, ?_, ?_, ?_, ?_, ?_, ?_⟩
  all_goals intros
  all_goals
    simp [walkChildren, Act.block, Act.forEach_append, Act.forEach_cons, Act.forEach_nil,
      Act.seq_skip_right, Act.seq_skip_left, Act.seq_assoc, Act.ifNotNil_eq_forEach,
      walkIdentList, walkStmtList, walkDeclList]

/-- C4: `walkExprList` makes no visitor call at all for an empty list, and for a non-empty
list it is one walk of one synthetic node, which is the first node visited; so a synthetic
node is visited for the slot if and only if the list is not empty.  The switch walks
`CompositeLit.Elts`, `CallExpr.Args`, `AssignStmt.Lhs` and `Rhs`, `ReturnStmt.Results`,
`CaseClause.List` and `ValueSpec.Values` with `walkExprList`; a call without arguments has
the function expression as its only child. -/
theorem C4_synthetic_node_iff_nonempty (ast : GoAst) (vis : Visitor σ V)
    (walk : V → Node → Act σ V) (v : V) (s : σ) :
    walkExprList ast walk v [] s = ⟨s, [], .returned⟩ ∧
    (∀ x rest, walkExprList ast walk v (x :: rest) =
      walk v (NewDummyNode "ExprList" (x.Pos ast)
        (((x :: rest).getLast (List.cons_ne_nil x rest)).End ast) (x :: rest))) ∧
    (∀ list, (∃ d, d.isDummyNode = true ∧
        (walkExprList ast (GoAST_Walk ast vis) v list s).calls.head? = some ⟨v, some d⟩) ↔
      list ≠ []) ∧
    (∀ list, (walkExprList ast (GoAST_Walk ast vis) v list s).calls = [] ↔ list = []) ∧
    (∀ typ elts, walkChildren ast walk v (.CompositeLit typ elts) =
      Act.seq (Act.ifNotNil typ (walk v)) (walkExprList ast walk v elts)) ∧
    (∀ fn args, walkChildren ast walk v (.CallExpr fn args) =
      Act.seq (walk v fn) (walkExprList ast walk v args)) ∧
    (∀ lhs rhs, walkChildren ast walk v (.AssignStmt lhs rhs) =
      Act.seq (walkExprList ast walk v lhs) (walkExprList ast walk v rhs)) ∧
    (∀ results, walkChildren ast walk v (.ReturnStmt results) =
      walkExprList ast walk v results) ∧
    (∀ list body, walkChildren ast walk v (.CaseClause list body) =
      Act.seq (walkExprList ast walk v list) (Act.forEach body (walk v))) ∧
    (∀ doc names typ values comment,
      walkChildren ast walk v (.ValueSpec doc names typ values comment) =
        Act.seq (Act.forEach (doc.toList ++ names ++ typ.toList) (walk v))
          (Act.seq (walkExprList ast walk v values) (Act.forEach comment.toList (walk v)))) ∧
    (∀ fn, walkChildren ast walk v (.CallExpr fn []) = walk v fn) := by
  refine ⟨rfl, walkExprList_cons ast walk v, ?_, ?_, ?_, ?_, ?_, ?_, ?_, ?_, ?_⟩
  · intro list
    cases list with
    | nil => simp [walkExprList, Act.skip]
    | cons x rest =>
      simp only [ne_eq, reduceCtorEq, not_false_eq_true, iff_true]
      exact ⟨NewDummyNode "ExprList" (x.Pos ast)
        (((x :: rest).getLast (List.cons_ne_nil x rest)).End ast) (x :: rest), rfl,
        by rw [walkExprList_cons, GoAST_Walk_calls_head]⟩
  · intro list
    cases list with
    | nil => simp [walkExprList, Act.skip]
    | cons x rest =>
      have h := GoAST_Walk_calls_head ast vis v (NewDummyNode "ExprList" (x.Pos ast)
        (((x :: rest).getLast (List.cons_ne_nil x rest)).End ast) (x :: rest)) s
      rw [walkExprList_cons]
      simp only [reduceCtorEq, iff_false]
      intro hnil
      rw [hnil] at h
      simp at h
  all_goals intros
  all_goals
    simp [walkChildren, walkExprList, Act.block, Act.forEach_append, Act.forEach_cons,
      Act.forEach_nil, Act.seq_skip_right, Act.seq_skip_left, Act.seq_assoc,
      Act.ifNotNil_eq_forEach, walkIdentList, walkStmtList, walkDeclList]

/-- C5: for a non-empty expression list `x :: rest`, `walkExprList` walks one node `d`, the
same for every walker, with `d.Pos()` the `Pos()` of the first element, `d.End()` the `End()`
of the last element and `d.List` the list itself (same length, same elements, same order);
the switch walks exactly the elements of the list, in order, as the children of `d`, and so
does `GoAST_Walk` when the visitor does not skip `d`.  The return statement `return a, 1`
has one synthetic child, whose children are `a` and `1` in this order. -/
theorem C5_synthetic_node_span_and_children (ast : GoAst) (vis : Visitor σ V) (x : Node)
    (rest : List Node) :
    ∃ d, (∀ (walk : V → Node → Act σ V) (v : V), walkExprList ast walk v (x :: rest) = walk v d) ∧
      d.isDummyNode = true ∧
      d.Pos ast = ((x :: rest).head (List.cons_ne_nil x rest)).Pos ast ∧
      d.End ast = ((x :: rest).getLast (List.cons_ne_nil x rest)).End ast ∧
      d.dummyList = x :: rest ∧
      d.dummyList.length = (x :: rest).length ∧
      (∀ (walk : V → Node → Act σ V) (w : V),
        walkChildren ast walk w d = Act.forEach (x :: rest) (walk w)) ∧
      (∀ (v w : V) (s : σ), (vis.Visit v (some d) s).1 = some w →
        GoAST_Walk ast vis v d s =
          Act.visit vis v (some d) (fun _ =>
            Act.seq (Act.forEach (x :: rest) (GoAST_Walk ast vis w))
              (Act.visit vis w none fun _ => Act.skip)) s) ∧
      (GoAST_Walk exampleAst levelVisitor 0 (.ReturnStmt [.Ident "a", .BasicLit "1"]) 0).calls =
        [⟨0, some (.ReturnStmt [.Ident "a", .BasicLit "1"])⟩,
          ⟨1, some (.DummyNode 10 14 "ExprList" [.Ident "a", .BasicLit "1"])⟩,
          ⟨2, some (.Ident "a")⟩, ⟨3, none⟩,
          ⟨2, some (.BasicLit "1")⟩, ⟨3, none⟩,
          ⟨2, none⟩,
          ⟨1, none⟩] := by
  refine ⟨NewDummyNode "ExprList" (x.Pos ast)
    (((x :: rest).getLast (List.cons_ne_nil x rest)).End ast) (x :: rest),
    fun walk v => walkExprList_cons ast walk v x rest, rfl, rfl, rfl, rfl, rfl,
    fun _ _ => rfl, ?_, rfl⟩
  intro v w s h
  rw [GoAST_Walk_descend ast vis v w _ s h]
  rfl

/-- C6: when the visitor does not skip a function declaration, `GoAST_Walk` calls
`Visit(decl)`, then walks, with the visitor `w` returned, exactly the present ones among doc
comment, receiver, name, signature type and body, in this order, then calls `w.Visit(nil)`.
Without doc comment and with receiver `r` and body `b` the children are the four nodes
`r`, name, type, `b`. -/
theorem C6_funcDecl_children (ast : GoAst) (vis : Visitor σ V) (v w : V)
    (doc recv : Option Node) (name typ : Node) (body : Option Node) (s : σ)
    (h : (vis.Visit v (some (.FuncDecl doc recv name typ body)) s).1 = some w) :
    GoAST_Walk ast vis v (.FuncDecl doc recv name typ body) s =
      Act.visit vis v (some (.FuncDecl doc recv name typ body)) (fun _ =>
        Act.seq
          (Act.forEach (doc.toList ++ recv.toList ++ [name, typ] ++ body.toList)
            (GoAST_Walk ast vis w))
          (Act.visit vis w none fun _ => Act.skip)) s ∧
    ∀ r b, doc = none → recv = some r → body = some b →
      doc.toList ++ recv.toList ++ [name, typ] ++ body.toList = [r, name, typ, b] := by
  refine ⟨?_, ?_⟩
  · rw [GoAST_Walk_descend ast vis v w _ s h,
      walkChildren_eq_forEach ast _ w (.FuncDecl doc recv name typ body) rfl]
    rfl
  · rintro r b rfl rfl rfl
    rfl

/-- C6 at `func (r) f() { return a, 1 }`: four children, receiver, name, signature, body. -/
theorem C6_witness :
    (levelVisitor.Visit 0 (some exampleFuncDecl) 0).1 = some 1 ∧
    GoAST_Walk exampleAst levelVisitor 0 exampleFuncDecl 0 =
      Act.visit levelVisitor 0 (some exampleFuncDecl) (fun _ =>
        Act.seq
          (Act.forEach
            [.FieldList [.Field none [.Ident "r"] (.Ident "T") none none],
              .Ident "f",
              .FuncType (.FieldList []) none,
              .BlockStmt [.ReturnStmt [.Ident "a", .BasicLit "1"]]]
            (GoAST_Walk exampleAst levelVisitor 1))
          (Act.visit levelVisitor 1 none fun _ => Act.skip)) 0 :=
  ⟨rfl, (C6_funcDecl_children exampleAst levelVisitor 0 1 none
    (some (.FieldList [.Field none [.Ident "r"] (.Ident "T") none none]))
    (.Ident "f") (.FuncType (.FieldList []) none)
    (some (.BlockStmt [.ReturnStmt [.Ident "a", .BasicLit "1"]])) 0 rfl).1⟩

/-- C7: when the visitor does not skip an if statement, `GoAST_Walk` calls `Visit(stmt)`,
then walks, with the visitor `w` returned, the initializer if present, the condition, the
body and the else branch if present, in this order, then calls `w.Visit(nil)`; an absent
initializer or else branch leads to no call, and the number of children is 2 plus the number
of optional children present. -/
theorem C7_ifStmt_children (ast : GoAst) (vis : Visitor σ V) (v w : V)
    (init : Option Node) (cond body : Node) (els : Option Node) (s : σ)
    (h : (vis.Visit v (some (.IfStmt init cond body els)) s).1 = some w) :
    GoAST_Walk ast vis v (.IfStmt init cond body els) s =
      Act.visit vis v (some (.IfStmt init cond body els)) (fun _ =>
        Act.seq
          (Act.forEach (init.toList ++ [cond, body] ++ els.toList) (GoAST_Walk ast vis w))
          (Act.visit vis w none fun _ => Act.skip)) s ∧
    (init.toList ++ [cond, body] ++ els.toList).length =
      2 + ((if init.isSome then 1 else 0) + (if els.isSome then 1 else 0)) ∧
    (init = none → els = none → init.toList ++ [cond, body] ++ els.toList = [cond, body]) := by
  refine ⟨?_, ?_, ?_⟩
  · rw [GoAST_Walk_descend ast vis v w _ s h,
      walkChildren_eq_forEach ast _ w (.IfStmt init cond body els) rfl]
    rfl
  · cases init <;> cases els <;> rfl
  · rintro rfl rfl
    rfl

/-- C7 at `if a { } else { ; }`: three children, condition, body, else branch. -/
theorem C7_witness :
    (levelVisitor.Visit 0
      (some (.IfStmt none (.Ident "a") (.BlockStmt []) (some (.BlockStmt [.EmptyStmt])))) 0).1 =
      some 1 ∧
    GoAST_Walk exampleAst levelVisitor 0
        (.IfStmt none (.Ident "a") (.BlockStmt []) (some (.BlockStmt [.EmptyStmt]))) 0 =
      Act.visit levelVisitor 0
        (some (.IfStmt none (.Ident "a") (.BlockStmt []) (some (.BlockStmt [.EmptyStmt]))))
        (fun _ =>
          Act.seq
            (Act.forEach [.Ident "a", .BlockStmt [], .BlockStmt [.EmptyStmt]]
              (GoAST_Walk exampleAst levelVisitor 1))
            (Act.visit levelVisitor 1 none fun _ => Act.skip)) 0 :=
  ⟨rfl, (C7_ifStmt_children exampleAst levelVisitor 0 1 none (.Ident "a") (.BlockStmt [])
    (some (.BlockStmt [.EmptyStmt])) 0 rfl).1⟩

/-- C8 (code defect, the claim holds of the documented design): in a file whose doc comment
of `func f()` is also listed in `File.Comments`, as `go/parser` builds it, the walk visits
that comment group and its comment twice, once through the declaration and once through
`File.Comments`: ten calls with a node for a tree of eight source nodes and no synthetic
node.  The comment in the source says that `n.Comments` is not walked. -/
theorem C8_comment_group_visited_twice :
    (GoAST_Walk exampleAst levelVisitor 0 exampleFile 0).calls.filterMap Call.node =
      [exampleFile,
        .Ident "main",
        .FuncDecl (some exampleDoc) none (.Ident "f") (.FuncType (.FieldList []) none) none,
        exampleDoc,
        .Comment "// doc",
        .Ident "f",
        .FuncType (.FieldList []) none,
        .FieldList [],
        exampleDoc,
        .Comment "// doc"] ∧
    nodeCalls (GoAST_Walk exampleAst levelVisitor 0 exampleFile 0).calls = 10 := by
  exact ⟨rfl, rfl⟩

/-- C9: for a leaf node (`Comment`, `BadExpr`, `Ident`, `BasicLit`, `BadStmt`, `EmptyStmt`,
`BadDecl`) that the visitor does not skip, `GoAST_Walk` returns after exactly two calls:
`v.Visit(node)` and then `w.Visit(nil)` on the visitor `w` that the first call returned. -/
theorem C9_leaf_two_calls (ast : GoAst) (vis : Visitor σ V) (v w : V) (node : Node) (s : σ)
    (hleaf : node.isLeaf = true) (h : (vis.Visit v (some node) s).1 = some w) :
    GoAST_Walk ast vis v node s =
      ⟨(vis.Visit w none (vis.Visit v (some node) s).2).2,
        [⟨v, some node⟩, ⟨w, none⟩], .returned⟩ := by
  rw [GoAST_Walk_descend ast vis v w node s h]
  cases node <;> simp [Node.isLeaf] at hleaf <;>
    simp [Act.visit, walkChildren, Act.seq, Act.skip]

/-- C9 at the identifier `a`. -/
theorem C9_witness :
    (Node.Ident "a").isLeaf = true ∧
    (levelVisitor.Visit 0 (some (.Ident "a")) 0).1 = some 1 ∧
    GoAST_Walk exampleAst levelVisitor 0 (.Ident "a") 0 =
      ⟨2, [⟨0, some (.Ident "a")⟩, ⟨1, none⟩], .returned⟩ :=
  ⟨rfl, rfl, C9_leaf_two_calls exampleAst levelVisitor 0 1 (.Ident "a") 0 rfl rfl⟩

/-- C10 fails as stated: with a visitor whose `Visit` returns nil, the walk of a node of a
type outside the switch returns normally after the one call, without panic. -/
theorem C10_counterexample_skipped_node_returns :
    GoAST_Walk exampleAst skipVisitor 0 (.Other "*walk.Foreign") 0 =
      ⟨1, [⟨0, some (.Other "*walk.Foreign")⟩], .returned⟩ := rfl

/-- C10, amended: for a node of a type outside the switch, if `v.Visit(node)` returns a
visitor, `GoAST_Walk` makes that one call and then panics with "ast.Walk", and if it returns
nil the walk returns normally.  For a node of an enumerated type the switch itself does not
panic: it returns when the walks of the children return, and the walk of a tree whose nodes
are all of enumerated types returns, whatever the visitor. -/
theorem C10_abort_only_after_descending (ast : GoAst) (vis : Visitor σ V) (v : V) (s : σ) :
    (∀ typeName w, (vis.Visit v (some (.Other typeName)) s).1 = some w →
      GoAST_Walk ast vis v (.Other typeName) s =
        ⟨(vis.Visit v (some (.Other typeName)) s).2, [⟨v, some (.Other typeName)⟩],
          .panicked ("ast.Walk: unexpected node type " ++ typeName) "ast.Walk"⟩) ∧
    (∀ typeName, (vis.Visit v (some (.Other typeName)) s).1 = none →
      GoAST_Walk ast vis v (.Other typeName) s =
        ⟨(vis.Visit v (some (.Other typeName)) s).2, [⟨v, some (.Other typeName)⟩],
          .returned⟩) ∧
    (∀ (node : Node), node.enumerated = true →
      ∀ (walk : V → Node → Act σ V) (w : V),
        (∀ c ∈ childrenWalked ast node, ∀ s₁, (walk w c s₁).out = .returned) →
        ∀ s₁, (walkChildren ast walk w node s₁).out = .returned) ∧
    (∀ (node : Node), node.inGrammar = true →
      (GoAST_Walk ast vis v node s).out = .returned) ∧
    GoAST_Walk exampleAst levelVisitor 0 (.Other "*walk.Foreign") 0 =
      ⟨1, [⟨0, some (.Other "*walk.Foreign")⟩],
        .panicked "ast.Walk: unexpected node type *walk.Foreign" "ast.Walk"⟩ := by
  refine ⟨?_, ?_, ?_, ?_, rfl⟩
  · intro typeName w h
    rw [GoAST_Walk_descend ast vis v w _ s h]
    rfl
  · intro typeName h
    exact GoAST_Walk_skip ast vis v _ s h
  · intro node hnode walk w hkids s₁
    rw [walkChildren_eq_forEach ast walk w node hnode]
    exact Act.forEach_returns hkids s₁
  · intro node hnode
    exact GoAST_Walk_returns ast vis node.depth node (Nat.le_refl _) hnode v s

/-- C11 fails as stated.  With two visitors that answer each other, `false.Visit(node)`
returns `w = true`, which is not `false`, and yet `false` receives a further call, the end
signal of the child.  And when the walk of a child panics, no end signal is delivered:
the walk of `(x)` with `x` of a type outside the switch ends after `Visit(x)`. -/
theorem C11_counterexample_first_visitor_called_again :
    (toggleVisitor.Visit false (some (.ParenExpr (.Ident "a"))) 0).1 = some true ∧
    (GoAST_Walk exampleAst toggleVisitor false (.ParenExpr (.Ident "a")) 0).calls =
      [⟨false, some (.ParenExpr (.Ident "a"))⟩,
        ⟨true, some (.Ident "a")⟩, ⟨false, none⟩,
        ⟨true, none⟩] ∧
    GoAST_Walk exampleAst levelVisitor 0 (.ParenExpr (.Other "*walk.Foreign")) 0 =
      ⟨2, [⟨0, some (.ParenExpr (.Other "*walk.Foreign"))⟩, ⟨1, some (.Other "*walk.Foreign")⟩],
        .panicked "ast.Walk: unexpected node type *walk.Foreign" "ast.Walk"⟩ :=
  ⟨rfl, rfl, rfl⟩

/-- C11, amended: if `w = v.Visit(node)` is not nil, the walk is `Visit(node)`, then the type
switch with `w` passed to every recursive call, then `w.Visit(nil)`; for a node of an
enumerated type the switch walks every child (a synthetic list node included) with `w`.  When
the walk returns, its last call is the end signal `w.Visit(nil)`.  After the first call a
visitor receives a call only if it is `w` or was returned by a `Visit` call on a node: `v`
receives no further call unless `w` is `v` or a `Visit` call of another visitor returns `v`. -/
theorem C11_children_walked_with_returned_visitor (ast : GoAst) (vis : Visitor σ V) (v w : V)
    (node : Node) (s : σ) (h : (vis.Visit v (some node) s).1 = some w) :
    GoAST_Walk ast vis v node s =
      Act.visit vis v (some node) (fun _ =>
        Act.seq (walkChildren ast (GoAST_Walk ast vis) w node)
          (Act.visit vis w none fun _ => Act.skip)) s ∧
    (node.enumerated = true →
      walkChildren ast (GoAST_Walk ast vis) w node =
        Act.forEach (childrenWalked ast node) (GoAST_Walk ast vis w)) ∧
    ((GoAST_Walk ast vis v node s).out = .returned →
      (GoAST_Walk ast vis v node s).calls.getLast? = some ⟨w, none⟩) ∧
    (∀ R : V → Prop, R w →
      (∀ u m t u', R u → (vis.Visit u (some m) t).1 = some u' → R u') →
      ∀ call ∈ (GoAST_Walk ast vis v node s).calls.tail, R call.recv) ∧
    (w ≠ v → (∀ u m t, u ≠ v → (vis.Visit u (some m) t).1 ≠ some v) →
      ∀ call ∈ (GoAST_Walk ast vis v node s).calls.tail, call.recv ≠ v) := by
  refine ⟨GoAST_Walk_descend ast vis v w node s h,
    fun hn => walkChildren_eq_forEach ast _ w node hn,
    GoAST_Walk_getLast ast vis v w node s h,
    fun R hw hR => GoAST_Walk_tail_recv ast vis R hR v w node s h hw, ?_⟩
  intro hne hret
  exact GoAST_Walk_tail_recv ast vis (fun u => u ≠ v)
    (fun u m t u' hu hv heq => hret u m t hu (heq ▸ hv)) v w node s h hne

/-- C11 at `(a)` with the visitor that answers visitor `k` with visitor `k + 1`. -/
theorem C11_witness :
    (levelVisitor.Visit 0 (some (.ParenExpr (.Ident "a"))) 0).1 = some 1 ∧
    (GoAST_Walk exampleAst levelVisitor 0 (.ParenExpr (.Ident "a")) 0).calls =
      [⟨0, some (.ParenExpr (.Ident "a"))⟩, ⟨1, some (.Ident "a")⟩, ⟨2, none⟩, ⟨1, none⟩] ∧
    (GoAST_Walk exampleAst levelVisitor 0 (.ParenExpr (.Ident "a")) 0).calls.getLast? =
      some ⟨1, none⟩ ∧
    ∀ call ∈ (GoAST_Walk exampleAst levelVisitor 0 (.ParenExpr (.Ident "a")) 0).calls.tail,
      call.recv ≠ 0 :=
  ⟨rfl, rfl,
    (C11_children_walked_with_returned_visitor exampleAst levelVisitor 0 1
      (.ParenExpr (.Ident "a")) 0 rfl).2.2.1 rfl,
    (C11_children_walked_with_returned_visitor exampleAst levelVisitor 0 1
      (.ParenExpr (.Ident "a")) 0 rfl).2.2.2.2 (by decide)
      (fun u _ _ _ hv => by simp [levelVisitor] at hv)⟩

/-- C12 fails as stated: a package container holds its files in a Go map, and two runs that
enumerate this map in different orders (here the stored order and its reverse) make
different sequences of calls on the same package of two files, with the same visitor and
positions. -/
theorem C12_counterexample_package_files_order :
    exampleAst.Pos = reversedAst.Pos ∧ exampleAst.End = reversedAst.End ∧
    (GoAST_Walk exampleAst levelVisitor 0 examplePackage 0).calls =
      [⟨0, some examplePackage⟩,
        ⟨1, some (.File none (.Ident "a") [] [])⟩, ⟨2, some (.Ident "a")⟩, ⟨3, none⟩, ⟨2, none⟩,
        ⟨1, some (.File none (.Ident "b") [] [])⟩, ⟨2, some (.Ident "b")⟩, ⟨3, none⟩, ⟨2, none⟩,
        ⟨1, none⟩] ∧
    (GoAST_Walk reversedAst levelVisitor 0 examplePackage 0).calls =
      [⟨0, some examplePackage⟩,
        ⟨1, some (.File none (.Ident "b") [] [])⟩, ⟨2, some (.Ident "b")⟩, ⟨3, none⟩, ⟨2, none⟩,
        ⟨1, some (.File none (.Ident "a") [] [])⟩, ⟨2, some (.Ident "a")⟩, ⟨3, none⟩, ⟨2, none⟩,
        ⟨1, none⟩] ∧
    (GoAST_Walk exampleAst levelVisitor 0 examplePackage 0).calls ≠
      (GoAST_Walk reversedAst levelVisitor 0 examplePackage 0).calls := by
  refine ⟨rfl, rfl, rfl, rfl, ?_⟩
  intro h
  have h₁ : (GoAST_Walk exampleAst levelVisitor 0 examplePackage 0).calls.get? 2 =
      some ⟨2, some (.Ident "a")⟩ := rfl
  have h₂ : (GoAST_Walk reversedAst levelVisitor 0 examplePackage 0).calls.get? 2 =
      some ⟨2, some (.Ident "b")⟩ := rfl
  rw [h, h₂] at h₁
  simp at h₁

/-- C12, amended: two runs of `GoAST_Walk` on the same tree, with the same visitor from the
same state and the same `go/ast` positions, make the same calls and end alike when both
enumerate the `Files` map of every package container of the tree in the same order (they may
enumerate other maps differently), and in any case when no package container of the tree has
more than one file. -/
theorem C12_deterministic_up_to_map_order (ast₁ ast₂ : GoAst) (vis : Visitor σ V)
    (hPos : ast₁.Pos = ast₂.Pos) (hEnd : ast₁.End = ast₂.End) (v : V) (node : Node) (s : σ) :
    (Node.sameFileOrder ast₁ ast₂ node →
      GoAST_Walk ast₁ vis v node s = GoAST_Walk ast₂ vis v node s) ∧
    (node.singleFiles = true →
      GoAST_Walk ast₁ vis v node s = GoAST_Walk ast₂ vis v node s) := by
  refine ⟨fun hnode => ?_, fun hnode => ?_⟩
  · rw [GoAST_Walk_congr_of_sameFileOrder vis hPos hEnd node.depth node (Nat.le_refl _) hnode v]
  · rw [GoAST_Walk_congr_of_singleFiles vis hPos hEnd node.depth node (Nat.le_refl _) hnode v]

/-- C12 at the package of two files, for two runs that enumerate a map of two values in the
same order and a map of three values in different orders. -/
theorem C12_witness :
    exampleAst.Pos = threeAst.Pos ∧ exampleAst.End = threeAst.End ∧
    exampleAst.mapOrder [.Ident "a", .Ident "b", .Ident "c"] =
      [.Ident "a", .Ident "b", .Ident "c"] ∧
    threeAst.mapOrder [.Ident "a", .Ident "b", .Ident "c"] =
      [.Ident "c", .Ident "b", .Ident "a"] ∧
    Node.sameFileOrder exampleAst threeAst examplePackage ∧
    GoAST_Walk exampleAst levelVisitor 0 examplePackage 0 =
      GoAST_Walk threeAst levelVisitor 0 examplePackage 0 ∧
    (GoAST_Walk threeAst levelVisitor 0 examplePackage 0).calls =
      [⟨0, some examplePackage⟩,
        ⟨1, some (.File none (.Ident "a") [] [])⟩, ⟨2, some (.Ident "a")⟩, ⟨3, none⟩, ⟨2, none⟩,
        ⟨1, some (.File none (.Ident "b") [] [])⟩, ⟨2, some (.Ident "b")⟩, ⟨3, none⟩, ⟨2, none⟩,
        ⟨1, none⟩] :=
  ⟨rfl, rfl, rfl, rfl,
    by simp [examplePackage, Node.sameFileOrder, Node.sameFileOrderList,
      Node.sameFileOrderOpt, exampleAst, threeAst],
    (C12_deterministic_up_to_map_order exampleAst threeAst levelVisitor rfl rfl 0
      examplePackage 0).1
      (by simp [examplePackage, Node.sameFileOrder, Node.sameFileOrderList,
        Node.sameFileOrderOpt, exampleAst, threeAst]),
    rfl⟩

section EntryClaims

variable {E Tree : Type}

/-- C13: `ParsePackage` runs `ParseDirectory`.  If that returns an error, `ParsePackage`
returns no tree and the same error; if it returns no error and the map has an entry for the
package name, `ParsePackage` returns that entry and no error; otherwise it returns no tree
and the error "The supplied package name was not found.".  In the example the directory
"src" holds the package "main". -/
theorem C13_ParsePackage_results (ast : GoAst) (deps : Deps σ V E Tree)
    (dir_path ext package_name : String) (s : σ) :
    (∀ pkgs err, (ParseDirectory ast deps dir_path ext s).ended = .returned pkgs (some err) →
      ParsePackage ast deps dir_path ext package_name s =
        ⟨(ParseDirectory ast deps dir_path ext s).store,
          (ParseDirectory ast deps dir_path ext s).created,
          (ParseDirectory ast deps dir_path ext s).calls, .returned none (some err)⟩) ∧
    (∀ pkgs pkg, (ParseDirectory ast deps dir_path ext s).ended = .returned pkgs none →
      mapIndex pkgs package_name = some pkg →
      ParsePackage ast deps dir_path ext package_name s =
        ⟨(ParseDirectory ast deps dir_path ext s).store,
          (ParseDirectory ast deps dir_path ext s).created,
          (ParseDirectory ast deps dir_path ext s).calls, .returned pkg none⟩) ∧
    (∀ pkgs, (ParseDirectory ast deps dir_path ext s).ended = .returned pkgs none →
      mapIndex pkgs package_name = none →
      ParsePackage ast deps dir_path ext package_name s =
        ⟨(ParseDirectory ast deps dir_path ext s).store,
          (ParseDirectory ast deps dir_path ext s).created,
          (ParseDirectory ast deps dir_path ext s).calls,
          .returned none (some (.errorsNew "The supplied package name was not found."))⟩) ∧
    (ParsePackage exampleAst exampleDeps "src" ".go" "main" 0).ended =
      .returned (some 28) none ∧
    (ParsePackage exampleAst exampleDeps "src" ".go" "other" 0).ended =
      .returned none (some (.errorsNew "The supplied package name was not found.")) ∧
    (ParsePackage exampleAst exampleDeps "nowhere" ".go" "main" 0).ended =
      .returned none (some (.parser "no such directory")) := by
  refine ⟨?_, ?_, ?_, rfl, rfl, rfl⟩
  · intro pkgs err h
    simp only [ParsePackage, h]
  · intro pkgs pkg h hpkg
    simp only [ParsePackage, h, hpkg]
  · intro pkgs h hpkg
    simp only [ParsePackage, h, hpkg]

/-- C14: when the directory parser fails, `ParseDirectory` returns no map and the parser's
error; when it succeeds with no package, `ParseDirectory` returns no map and the error
"No packages found."; in both cases no visitor is made, no `Visit` call happens and the state
is unchanged.  That error is returned in no other case. -/
theorem C14_ParseDirectory_errors (ast : GoAst) (deps : Deps σ V E Tree)
    (dir_path ext : String) (s : σ) :
    (∀ err, deps.ParseDir dir_path (fun name => HasSuffix name ext) = .error err →
      ParseDirectory ast deps dir_path ext s =
        ⟨s, [], [], .returned none (some (.parser err))⟩) ∧
    (deps.ParseDir dir_path (fun name => HasSuffix name ext) = .ok [] →
      ParseDirectory ast deps dir_path ext s =
        ⟨s, [], [], .returned none (some (.errorsNew "No packages found."))⟩) ∧
    ((∃ pkgasts, (ParseDirectory ast deps dir_path ext s).ended =
        .returned pkgasts (some (.errorsNew "No packages found."))) ↔
      deps.ParseDir dir_path (fun name => HasSuffix name ext) = .ok []) ∧
    ParseDirectory exampleAst exampleDeps "empty" ".go" 0 =
      ⟨0, [], [], .returned none (some (.errorsNew "No packages found."))⟩ ∧
    ParseDirectory exampleAst exampleDeps "nowhere" ".go" 0 =
      ⟨0, [], [], .returned none (some (.parser "no such directory"))⟩ := by
  refine ⟨?_, ?_, ?_, rfl, rfl⟩
  · intro err h
    simp only [ParseDirectory, h]
  · intro h
    simp [ParseDirectory, h]
  · cases hparse : deps.ParseDir dir_path (fun name => HasSuffix name ext) with
    | error err => simp [ParseDirectory, hparse]
    | ok pkgs =>
      cases pkgs with
      | nil => simp [ParseDirectory, hparse]
      | cons entry rest =>
        have hrun : ParseDirectory ast deps dir_path ext s =
            ParseDirectory.loop ast deps (entry :: rest) [] s := by
          simp [ParseDirectory, hparse]
        rw [hrun]
        constructor
        · rintro ⟨pkgasts, h⟩
          have := (ParseDirectory.loop_of_returned ast deps (entry :: rest) [] s _ _ h).1
          cases this
        · intro h
          cases h


/-- C15 fails as stated: the parser accepts the file "gen.go", whose declaration
`var x = m[int, string]` holds a node of a type outside the switch; `ParseFile` makes a
visitor, the walk panics at that node after nine calls, and `ParseFile` returns nothing. -/
theorem C15_counterexample_walk_panics_after_parse :
    exampleDeps.ParseFile "gen.go" = .ok exampleForeignFile ∧
    (ParseFile exampleAst exampleDeps "gen.go" 0).ended =
      .panicked "ast.Walk: unexpected node type *ast.IndexListExpr" "ast.Walk" ∧
    (ParseFile exampleAst exampleDeps "gen.go" 0).created = [0] ∧
    (ParseFile exampleAst exampleDeps "gen.go" 0).calls.length = 9 :=
  ⟨rfl, rfl, rfl, rfl⟩

/-- C15, amended: when the parser reports an error for the file, `ParseFile` returns no tree
and that error, makes no visitor and no `Visit` call and leaves the state unchanged.  When
the parser succeeds, `ParseFile` makes one visitor with `visitor.New()` and runs `GoAST_Walk`
with it over the parsed file; if the walk returns, as it does when every node of the file is
of a type the switch enumerates, `ParseFile` returns what `AST()` then returns for this
visitor, with a nil error; if the walk panics, which is the only other way it ends,
`ParseFile` ends in the same panic. -/
theorem C15_ParseFile_results (ast : GoAst) (deps : Deps σ V E Tree) (file_path : String)
    (s : σ) :
    (∀ err, deps.ParseFile file_path = .error err →
      ParseFile ast deps file_path s = ⟨s, [], [], .returned none (some (.parser err))⟩) ∧
    (∀ file, deps.ParseFile file_path = .ok file →
      (ParseFile ast deps file_path s).created = [(deps.New s).1] ∧
      (ParseFile ast deps file_path s).calls =
        (GoAST_Walk ast deps.visitor (deps.New s).1 file (deps.New s).2).calls ∧
      ((GoAST_Walk ast deps.visitor (deps.New s).1 file (deps.New s).2).out = .returned →
        ParseFile ast deps file_path s =
          ⟨(deps.AST (deps.New s).1
              (GoAST_Walk ast deps.visitor (deps.New s).1 file (deps.New s).2).store).2,
            [(deps.New s).1],
            (GoAST_Walk ast deps.visitor (deps.New s).1 file (deps.New s).2).calls,
            .returned (deps.AST (deps.New s).1
              (GoAST_Walk ast deps.visitor (deps.New s).1 file (deps.New s).2).store).1
              none⟩) ∧
      (∀ printed value,
        (GoAST_Walk ast deps.visitor (deps.New s).1 file (deps.New s).2).out =
          .panicked printed value →
        ParseFile ast deps file_path s =
          ⟨(GoAST_Walk ast deps.visitor (deps.New s).1 file (deps.New s).2).store,
            [(deps.New s).1],
            (GoAST_Walk ast deps.visitor (deps.New s).1 file (deps.New s).2).calls,
            .panicked printed value⟩) ∧
      ((GoAST_Walk ast deps.visitor (deps.New s).1 file (deps.New s).2).out = .returned ∨
        ∃ printed, (GoAST_Walk ast deps.visitor (deps.New s).1 file (deps.New s).2).out =
          .panicked printed "ast.Walk") ∧
      (file.inGrammar = true →
        (GoAST_Walk ast deps.visitor (deps.New s).1 file (deps.New s).2).out = .returned)) ∧
    ParseFile exampleAst exampleDeps "g.go" 0 =
      ⟨0, [], [], .returned none (some (.parser "no such file"))⟩ ∧
    (ParseFile exampleAst exampleDeps "f.go" 0).ended = .returned (some 26) none ∧
    (ParseFile exampleAst exampleDeps "f.go" 0).calls =
      (GoAST_Walk exampleAst levelVisitor 0 exampleFuncDecl 0).calls := by
  refine ⟨?_, ?_, rfl, rfl, rfl⟩
  · intro err h
    simp only [ParseFile, h]
  · intro file h
    refine ⟨?_, ?_, ?_, ?_,
      GoAST_Walk_out_cases ast deps.visitor file.depth file (Nat.le_refl _) _ _,
      fun hfile => GoAST_Walk_returns ast deps.visitor file.depth file (Nat.le_refl _)
        hfile _ _⟩
    · simp only [ParseFile, h]
      split <;> rfl
    · simp only [ParseFile, h]
      split <;> rfl
    · intro hout
      simp only [ParseFile, h, hout]
    · intro printed value hout
      simp only [ParseFile, h, hout]

end EntryClaims

/-- C16 (code defect, the claim holds of the documented design): the case `*File` of the
switch walks the doc comment if present, the name, the declarations and then every comment
group of `File.Comments`, although the comment below the loop says that `n.Comments` is not
walked.  In the file whose doc comment of `func f()` is also listed in `File.Comments`, the
comment group is visited as a child of the declaration and again as a child of the file. -/
theorem C16_file_comments_are_walked (ast : GoAst) (walk : V → Node → Act σ V) (v : V)
    (doc : Option Node) (name : Node) (decls comments : List Node) :
    walkChildren ast walk v (.File doc name decls comments) =
      Act.forEach (doc.toList ++ [name] ++ decls ++ comments) (walk v) ∧
    (GoAST_Walk exampleAst levelVisitor 0 exampleFile 0).calls =
      [⟨0, some exampleFile⟩,
        ⟨1, some (.Ident "main")⟩, ⟨2, none⟩,
        ⟨1, some (.FuncDecl (some exampleDoc) none (.Ident "f")
          (.FuncType (.FieldList []) none) none)⟩,
        ⟨2, some exampleDoc⟩, ⟨3, some (.Comment "// doc")⟩, ⟨4, none⟩, ⟨3, none⟩,
        ⟨2, some (.Ident "f")⟩, ⟨3, none⟩,
        ⟨2, some (.FuncType (.FieldList []) none)⟩,
        ⟨3, some (.FieldList [])⟩, ⟨4, none⟩, ⟨3, none⟩,
        ⟨2, none⟩,
        ⟨1, some exampleDoc⟩, ⟨2, some (.Comment "// doc")⟩, ⟨3, none⟩, ⟨2, none⟩,
        ⟨1, none⟩] := by
  refine ⟨?_, rfl⟩
  rw [walkChildren_eq_forEach ast walk v (.File doc name decls comments) rfl]
  rfl

section EntryClaims17

variable {E Tree : Type}

/-- C17 fails as stated: the directory parser succeeds for "gen" with one package, whose file
holds a node of a type outside the switch; `ParseDirectory` makes a visitor, the walk of the
package panics at that node, and `ParseDirectory` returns neither a map nor an error. -/
theorem C17_counterexample_walk_panics_in_loop :
    exampleDeps.ParseDir "gen" (fun name => HasSuffix name ".go") =
      .ok [("main", .Package [exampleForeignFile])] ∧
    (ParseDirectory exampleAst exampleDeps "gen" ".go" 0).ended =
      .panicked "ast.Walk: unexpected node type *ast.IndexListExpr" "ast.Walk" ∧
    (ParseDirectory exampleAst exampleDeps "gen" ".go" 0).created = [0] ∧
    (ParseDirectory exampleAst exampleDeps "gen" ".go" 0).calls.length = 10 :=
  ⟨rfl, rfl, rfl, rfl⟩

/-- C17, amended: when the directory parser succeeds with at least one package,
`ParseDirectory` either returns or ends in the panic "ast.Walk" of a walk.  Whenever it
returns, it returns a nil error and a map that has an entry for a name exactly when the
parser's map has one; it has made one visitor per package, each with `visitor.New()`, and the
value of a name is what `AST()` returns for such a fresh visitor after `GoAST_Walk` over a
package of that name.  It returns when every node of every package is of a type the switch
enumerates. -/
theorem C17_ParseDirectory_success (ast : GoAst) (deps : Deps σ V E Tree)
    (dir_path ext : String) (s : σ) (pkgs : List (String × Node))
    (hparse : deps.ParseDir dir_path (fun name => HasSuffix name ext) = .ok pkgs)
    (hpkgs : pkgs ≠ []) :
    ((∃ m err, (ParseDirectory ast deps dir_path ext s).ended = .returned m err) ∨
      ∃ printed, (ParseDirectory ast deps dir_path ext s).ended =
        .panicked printed "ast.Walk") ∧
    (∀ m err, (ParseDirectory ast deps dir_path ext s).ended = .returned m err →
      err = none ∧ ∃ pkgasts, m = some pkgasts ∧
        (∀ name, (pkgasts.lookup name).isSome = true ↔ (pkgs.lookup name).isSome = true) ∧
        (ParseDirectory ast deps dir_path ext s).created.length = pkgs.length ∧
        (∀ v ∈ (ParseDirectory ast deps dir_path ext s).created,
          ∃ s₀, v = (deps.New s₀).1) ∧
        (∀ name tree, pkgasts.lookup name = some tree →
          ∃ node s₀, (name, node) ∈ pkgs ∧
            tree = (deps.AST (deps.New s₀).1
              (GoAST_Walk ast deps.visitor (deps.New s₀).1 node (deps.New s₀).2).store).1)) ∧
    ((∀ entry ∈ pkgs, entry.2.inGrammar = true) →
      ∃ pkgasts,
        (ParseDirectory ast deps dir_path ext s).ended = .returned (some pkgasts) none) := by
  have hrun : ParseDirectory ast deps dir_path ext s = ParseDirectory.loop ast deps pkgs [] s := by
    have hlen' : pkgs.length ≠ 0 := fun h => hpkgs (List.length_eq_zero.mp h)
    simp only [ParseDirectory, hparse, hlen', if_false]
  rw [hrun]
  refine ⟨ParseDirectory.loop_ended_cases ast deps pkgs [] s, ?_, ?_⟩
  · intro m err h
    obtain ⟨herr, result, hm, hlen, hnew, hkeys, hvals⟩ :=
      ParseDirectory.loop_of_returned ast deps pkgs [] s m err h
    refine ⟨herr, result, hm, ?_, hlen, hnew, ?_⟩
    · intro name
      rw [hkeys name, lookup_isSome_iff pkgs name]
      simp [List.lookup]
    · intro name tree hres
      rcases hvals name tree hres with h' | h'
      · simp [List.lookup] at h'
      · exact h'
  · intro hgrammar
    obtain ⟨m, hended, _⟩ := ParseDirectory.loop_spec ast deps pkgs [] s hgrammar
    exact ⟨m, hended⟩

/-- C17 at the directory "src" of the example, which holds the package "main". -/
theorem C17_witness :
    exampleDeps.ParseDir "src" (fun name => HasSuffix name ".go") =
      .ok [("main", .Package [exampleFuncDecl])] ∧
    [("main", Node.Package [exampleFuncDecl])] ≠ [] ∧
    (ParseDirectory exampleAst exampleDeps "src" ".go" 0).ended =
      .returned (some [("main", some 28)]) none ∧
    (ParseDirectory exampleAst exampleDeps "src" ".go" 0).created = [0] ∧
    (∀ m err, (ParseDirectory exampleAst exampleDeps "src" ".go" 0).ended = .returned m err →
      err = none ∧ ∃ pkgasts, m = some pkgasts ∧
        (∀ name, (pkgasts.lookup name).isSome = true ↔
          (List.lookup name [("main", Node.Package [exampleFuncDecl])]).isSome = true) ∧
        (ParseDirectory exampleAst exampleDeps "src" ".go" 0).created.length =
          [("main", Node.Package [exampleFuncDecl])].length ∧
        (∀ v ∈ (ParseDirectory exampleAst exampleDeps "src" ".go" 0).created,
          ∃ s₀, v = (exampleDeps.New s₀).1) ∧
        (∀ name tree, pkgasts.lookup name = some tree →
          ∃ node s₀, (name, node) ∈ [("main", Node.Package [exampleFuncDecl])] ∧
            tree = (exampleDeps.AST (exampleDeps.New s₀).1
              (GoAST_Walk exampleAst exampleDeps.visitor (exampleDeps.New s₀).1 node
                (exampleDeps.New s₀).2).store).1)) :=
  ⟨rfl, by simp, rfl, rfl,
    (C17_ParseDirectory_success exampleAst exampleDeps "src" ".go" 0
      [("main", .Package [exampleFuncDecl])] rfl (by simp)).2.1⟩

end EntryClaims17

/-- C18: `GoAST_Walk` terminates on every tree for every visitor.  Every recursive call that
the switch makes, the one on a fresh synthetic node included, is on a node of smaller depth,
and the switch depends on the recursive walker at such nodes only; so a budget of
`node.depth` or more gives the result of `GoAST_Walk`, which never stops for lack of budget.
The children of the synthetic node built for a list are exactly the elements of the list, so
none of them is a synthetic node unless the list held one. -/
theorem C18_walk_terminates (ast : GoAst) (vis : Visitor σ V) (v : V) (node : Node) (s : σ) :
    (∀ fuel, node.depth ≤ fuel →
      GoAST_WalkFuel ast vis fuel v node s = GoAST_Walk ast vis v node s) ∧
    (GoAST_Walk ast vis v node s).out ≠ .outOfFuel ∧
    (∀ c ∈ childrenWalked ast node, c.depth < node.depth) ∧
    (∀ (walk₁ walk₂ : V → Node → Act σ V),
      (∀ u c, c.depth < node.depth → walk₁ u c = walk₂ u c) →
      walkChildren ast walk₁ v node = walkChildren ast walk₂ v node) ∧
    (∀ (walk : V → Node → Act σ V) (x : Node) (rest : List Node),
      ∃ d, walkExprList ast walk v (x :: rest) = walk v d ∧
        d.depth = 1 + Node.depthList (x :: rest) ∧
        childrenWalked ast d = x :: rest ∧
        walkChildren ast walk v d = Act.forEach (x :: rest) (walk v) ∧
        ((∀ e ∈ x :: rest, e.isDummyNode = false) →
          ∀ c ∈ childrenWalked ast d, c.isDummyNode = false)) := by
  refine ⟨fun fuel h => by rw [GoAST_WalkFuel_eq ast vis fuel v node h],
    GoAST_Walk_out_ne_outOfFuel ast vis node.depth node (Nat.le_refl _) v s,
    Node.depth_lt_of_mem_childrenWalked ast node, ?_, ?_⟩
  · intro walk₁ walk₂ h
    exact walkChildren_congr ast walk₁ walk₂ v node fun c hc =>
      h v c (Node.depth_lt_of_mem_childrenWalked ast node c hc)
  · intro walk x rest
    exact ⟨_, walkExprList_cons ast walk v x rest, rfl, rfl, rfl, fun h => h⟩

/-- C19: in the walk of a tree that holds no synthetic node, every synthetic node visited,
whatever the slot it was built for, carries the name "ExprList"; it is the name of the node
that `walkExprList` builds for any non-empty list. -/
theorem C19_synthetic_nodes_share_name (ast : GoAst) (vis : Visitor σ V) (v : V) (root : Node)
    (hroot : root.noDummy = true) (s : σ) :
    (∀ call ∈ (GoAST_Walk ast vis v root s).calls, ∀ d, call.node = some d →
      d.isDummyNode = true → d.dummyName = some "ExprList") ∧
    (∀ (walk : V → Node → Act σ V) (u : V) (x : Node) (rest : List Node),
      ∃ d, walkExprList ast walk u (x :: rest) = walk u d ∧
        d.dummyName = some "ExprList") :=
  ⟨GoAST_Walk_dummy_named ast vis v root hroot s,
    fun walk u x rest => ⟨_, walkExprList_cons ast walk u x rest, rfl⟩⟩

/-- C19 at the assignment `a = 1`: the synthetic nodes of the left-hand and of the right-hand
side carry the same name and differ by their span and their list only. -/
theorem C19_witness :
    exampleAssign.noDummy = true ∧
    (GoAST_Walk exampleAst levelVisitor 0 exampleAssign 0).calls =
      [⟨0, some exampleAssign⟩,
        ⟨1, some (.DummyNode 10 11 "ExprList" [.Ident "a"])⟩,
        ⟨2, some (.Ident "a")⟩, ⟨3, none⟩, ⟨2, none⟩,
        ⟨1, some (.DummyNode 13 14 "ExprList" [.BasicLit "1"])⟩,
        ⟨2, some (.BasicLit "1")⟩, ⟨3, none⟩, ⟨2, none⟩,
        ⟨1, none⟩] ∧
    ∀ call ∈ (GoAST_Walk exampleAst levelVisitor 0 exampleAssign 0).calls, ∀ d,
      call.node = some d → d.isDummyNode = true → d.dummyName = some "ExprList" :=
  ⟨rfl, rfl,
    (C19_synthetic_nodes_share_name exampleAst levelVisitor 0 exampleAssign rfl 0).1⟩

/-- C20: for a node of a type outside the switch, `GoAST_Walk` panics if and only if
`Visit(node)` returns a visitor; in both cases `Visit(node)` is the only call made, so the
visitor never receives the matching `Visit(nil)`; when `Visit(node)` returns nil the walk
returns normally, and otherwise it panics with "ast.Walk". -/
theorem C20_abort_iff_visit_returns_visitor (ast : GoAst) (vis : Visitor σ V) (v : V)
    (typeName : String) (s : σ) :
    ((∃ printed value, (GoAST_Walk ast vis v (.Other typeName) s).out =
        .panicked printed value) ↔
      (vis.Visit v (some (.Other typeName)) s).1 ≠ none) ∧
    (GoAST_Walk ast vis v (.Other typeName) s).calls = [⟨v, some (.Other typeName)⟩] ∧
    ((vis.Visit v (some (.Other typeName)) s).1 = none →
      (GoAST_Walk ast vis v (.Other typeName) s).out = .returned) ∧
    (∀ w, (vis.Visit v (some (.Other typeName)) s).1 = some w →
      (GoAST_Walk ast vis v (.Other typeName) s).out =
        .panicked ("ast.Walk: unexpected node type " ++ typeName) "ast.Walk") := by
  cases hw : (vis.Visit v (some (.Other typeName)) s).1 with
  | none =>
    rw [GoAST_Walk_skip ast vis v _ s hw]
    simp
  | some w =>
    rw [GoAST_Walk_descend ast vis v w _ s hw]
    simp [Act.visit, Act.seq, walkChildren, Act.panic]

end Claims

end GoAST
